import Mathlib

/-!
# LB-t: population indexing with the A-A access pattern

Shallow embedding of `src/lattice/D3Q19.hpp`, `src/population/population_indexing.hpp`,
`src/continuum/continuum_import.hpp` and `src/geometry/cylinder.hpp`.

* `unsigned int` has 32 bits and `size_t` has 64: an `unsigned int` is a natural number
  reduced modulo `2^32` after every arithmetic operation (`u32`); a `size_t` is a natural
  number (only division and remainder are taken in `size_t`).
* `int` values (the velocity components after `static_cast<int>`) are integers.
* A C array `unsigned int const (&x)[3]` is a function on `Fin 3`.
-/

namespace LBt

/-! ## Lattice model -/

/-- The static members of a lattice class `LT` (template parameter of `Population`). -/
structure Lattice where
  DIM : Nat
  SPEEDS : Nat
  HSPEED : Nat
  PAD : Nat
  ND : Nat
  OFF : Nat
  DX : List Int
  DY : List Int
  DZ : List Int
  W : List ℚ

namespace D3Q19

def DIM : Nat := 3
def SPEEDS : Nat := 19
def HSPEED : Nat := (SPEEDS + 1) / 2

def PAD : Nat := 1
def ND : Nat := SPEEDS + PAD
def OFF : Nat := ND / 2

def DX : List Int :=
  [ 0,  1,  0,  0,  1,  1,  1,
    1,  0,  0,
    0, -1,  0,  0, -1, -1, -1,
   -1,  0,  0 ]

def DY : List Int :=
  [ 0,  0,  1,  0,  1, -1,  0,
    0,  1,  1,
    0,  0, -1,  0, -1,  1,  0,
    0, -1, -1 ]

def DZ : List Int :=
  [ 0,  0,  0,  1,  0,  0,  1,
   -1,  1, -1,
    0,  0,  0, -1,  0,  0, -1,
    1, -1,  1 ]

def W : List ℚ :=
  [ 1/3,
    1/8,  1/8,  1/8,
    1/36, 1/36, 1/36,
    1/36, 1/36, 1/36,
    1/3,
    1/8,  1/8,  1/8,
    1/36, 1/36, 1/36,
    1/36, 1/36, 1/36 ]

/-- The class `lattice::D3Q19` as a lattice model. -/
def model : Lattice :=
  { DIM := DIM, SPEEDS := SPEEDS, HSPEED := HSPEED, PAD := PAD, ND := ND, OFF := OFF,
    DX := DX, DY := DY, DZ := DZ, W := W }

end D3Q19

/-! ## Machine arithmetic -/

/-- Reduction of a natural number to the range of `unsigned int` (32 bits). -/
def u32 (a : Nat) : Nat := a % 2 ^ 32

/-- Logical negation `!n` of an `unsigned int`, as the integer 0 or 1. -/
def lnot (n : Nat) : Nat := if n = 0 then 1 else 0

/-- The macro `O_E(odd,a,b)`: `a*static_cast<decltype(a)>(odd) + b*static_cast<decltype(b)>(!odd)`. -/
def O_E {α : Type} [Mul α] [Add α] [NatCast α] (odd : Bool) (a b : α) : α :=
  a * ((odd.toNat : Nat) : α) + b * (((!odd).toNat : Nat) : α)

/-- A C array of three `unsigned int`. -/
abbrev Arr3 : Type := Fin 3 → Nat

/-- Subscript `x[i]` with an `int` index. Outside `0..2` the access is undefined in C++;
the model reads 0 there. -/
def Arr3.get (a : Arr3) (i : Int) : Nat :=
  if i = 0 then a 0 else if i = 1 then a 1 else if i = 2 then a 2 else 0

/-- Subscript `t[i]` of a velocity table. Outside the table the access is undefined in C++;
the model reads 0 there. -/
def tab (t : List Int) (i : Nat) : Int := t.getD i 0

/-! ## Population indexing -/

/-- The template parameters of `Population<NX,NY,NZ,LT,NPOP>`. -/
structure Population where
  NX : Nat
  NY : Nat
  NZ : Nat
  LT : Lattice
  NPOP : Nat

namespace Population

/-- Modelled from the spec: the class constant `OFF_` of `Population`, whose declaration is not
among the sources; it is the offset `OFF = ND/2` of the lattice model that separates the
positive and the negative half of a node. -/
def OFF_ (P : Population) : Nat := P.LT.OFF

/-- The index expression
`(((z*NY + y)*NX + x)*NPOP + p)*LT::ND + n*LT::OFF + d`, evaluated in `unsigned int`
and widened to `size_t` on return. -/
def SpatialToLinear (P : Population) (x y z n d p : Nat) : Nat :=
  u32 (u32 (u32 (u32 (u32 (u32 (u32 (u32 (u32 (z * P.NY) + y) * P.NX) + x) * P.NPOP) + p)
    * P.LT.ND) + u32 (n * P.LT.OFF)) + d)

/-- The six output parameters of `LinearToSpatial`, in the order of its signature
`(x, y, z, p, n, d)`. The factors are products of `unsigned int` stored in a `size_t`;
division and remainder are taken in `size_t`; each result is narrowed to `unsigned int`.
A zero factor is a division by zero: no result. -/
def LinearToSpatial (P : Population) (index : Nat) : Option (Nat × Nat × Nat × Nat × Nat × Nat) :=
  let factor1 := u32 (u32 (u32 (P.LT.ND * P.NPOP) * P.NX) * P.NY)
  let factor2 := u32 (u32 (P.LT.ND * P.NPOP) * P.NX)
  let factor3 := u32 (P.LT.ND * P.NPOP)
  let factor4 := P.LT.ND
  let factor5 := P.LT.OFF
  let factor6 := P.LT.SPEEDS
  if factor1 = 0 ∨ factor2 = 0 ∨ factor3 = 0 ∨ factor4 = 0 ∨ factor5 = 0 ∨ factor6 = 0 then none
  else
    let rest1 := index % factor1
    let z := u32 (index / factor1)
    let y := u32 (rest1 / factor2)
    let rest2 := rest1 % factor2
    let x := u32 (rest2 / factor3)
    let rest3 := rest2 % factor3
    let p := u32 (rest3 / factor4)
    let rest4 := rest3 % factor4
    let n := u32 (rest4 / factor5)
    let rest5 := rest4 % factor5
    let d := u32 (rest5 % factor6)
    some (x, y, z, p, n, d)

/-- The function `AA_IndexRead<odd>`. -/
def AA_IndexRead (P : Population) (odd : Bool) (x y z : Arr3) (n d p : Nat) : Nat :=
  P.SpatialToLinear
    (x.get (1 + O_E odd (tab P.LT.DX (u32 (u32 (lnot n * P.OFF_) + d))) 0))
    (y.get (1 + O_E odd (tab P.LT.DY (u32 (u32 (lnot n * P.OFF_) + d))) 0))
    (z.get (1 + O_E odd (tab P.LT.DZ (u32 (u32 (lnot n * P.OFF_) + d))) 0))
    (O_E odd n (lnot n))
    d p

/-- The function `AA_IndexWrite<odd>`. -/
def AA_IndexWrite (P : Population) (odd : Bool) (x y z : Arr3) (n d p : Nat) : Nat :=
  P.SpatialToLinear
    (x.get (1 + O_E odd (tab P.LT.DX (u32 (u32 (n * P.OFF_) + d))) 0))
    (y.get (1 + O_E odd (tab P.LT.DY (u32 (u32 (n * P.OFF_) + d))) 0))
    (z.get (1 + O_E odd (tab P.LT.DZ (u32 (u32 (n * P.OFF_) + d))) 0))
    (O_E odd (lnot n) n)
    d p

end Population

/-- The spec's formula for `linearize`, over exact natural numbers:
`(((z·NY + y)·NX + x)·NPOP + p)·ND + n·OFF + d`. -/
def linearize (P : Population) (x y z n d p : Nat) : Nat :=
  (((z * P.NY + y) * P.NX + x) * P.NPOP + p) * P.LT.ND + n * P.LT.OFF + d

/-- The population `Population<NX,NY,NZ,lattice::D3Q19<T>,NPOP>`. -/
def popD3Q19 (NX NY NZ NPOP : Nat) : Population :=
  { NX := NX, NY := NY, NZ := NZ, LT := D3Q19.model, NPOP := NPOP }

/-- Modelled from the spec: the neighbour array `[(c-1) mod N, c, (c+1) mod N]` that the caller
(not among the sources) passes for a coordinate `c` of a periodic axis of extent `N`. -/
def periodic (N c : Nat) : Arr3 := ![(c + N - 1) % N, c, (c + 1) % N]

/-- A tuple is valid for the population `P`: coordinates inside the domain, population index
below `NPOP`, and the slot `n*OFF + d` inside the `ND` slots of a node. -/
def Valid (P : Population) (x y z n d p : Nat) : Prop :=
  x < P.NX ∧ y < P.NY ∧ z < P.NZ ∧ p < P.NPOP ∧ n * P.LT.OFF + d < P.LT.ND

/-- The number of entries of the buffer `F_`. -/
def bufferSize (P : Population) : Nat := P.NX * P.NY * P.NZ * P.NPOP * P.LT.ND

/-- Modelled from the spec: the coordinate `c + δ` wrapped periodically on an axis of
extent `N`. -/
def wrapAdd (N c : Nat) (δ : Int) : Nat := (((c : Int) + δ) % (N : Int)).toNat

/-- The x-component of the velocity of the direction `(n, d)` of D3Q19, `DX[n*OFF + d]`. -/
def cx (n d : Nat) : Int := tab D3Q19.DX (n * D3Q19.OFF + d)

/-- The y-component of the velocity of the direction `(n, d)` of D3Q19, `DY[n*OFF + d]`. -/
def cy (n d : Nat) : Int := tab D3Q19.DY (n * D3Q19.OFF + d)

/-- The z-component of the velocity of the direction `(n, d)` of D3Q19, `DZ[n*OFF + d]`. -/
def cz (n d : Nat) : Int := tab D3Q19.DZ (n * D3Q19.OFF + d)

/-- Modelled from the spec: the twenty pairs `(n, d)` of a node, `n ∈ {0,1}` and `d < 10`,
that a phase sweep reads and writes. -/
def slots : List (Nat × Nat) :=
  (List.range 2).flatMap fun n => (List.range 10).map fun d => (n, d)

/-- Modelled from the spec: the nodes `(x, y, z)` of the domain in the order a phase sweep
visits them, `z` outermost and `x` innermost. -/
def nodes (P : Population) : List (Nat × Nat × Nat) :=
  (List.range P.NZ).flatMap fun z =>
    (List.range P.NY).flatMap fun y => (List.range P.NX).map fun x => (x, y, z)

/-- The offset `AA_IndexWrite<odd>` returns at the node `r` of the periodic domain for the
pair `nd = (n, d)` and the population 0. -/
def writeAt (P : Population) (odd : Bool) (r : Nat × Nat × Nat) (nd : Nat × Nat) : Nat :=
  P.AA_IndexWrite odd (periodic P.NX r.1) (periodic P.NY r.2.1) (periodic P.NZ r.2.2)
    nd.1 nd.2 0

/-- The offset `AA_IndexRead<odd>` returns at the node `r` of the periodic domain for the
pair `nd = (n, d)` and the population 0. -/
def readAt (P : Population) (odd : Bool) (r : Nat × Nat × Nat) (nd : Nat × Nat) : Nat :=
  P.AA_IndexRead odd (periodic P.NX r.1) (periodic P.NY r.2.1) (periodic P.NZ r.2.2)
    nd.1 nd.2 0

/-- Modelled from the spec: the update of one node `r` in a phase sweep with the identity
collision, on a buffer `F` from offsets to values. All twenty values are read from `F` at
`AA_IndexRead<odd>`; then the value of `(n, d)` is stored unchanged at `AA_IndexWrite<odd>`. -/
def nodeStep {α : Type} (P : Population) (odd : Bool) (F : Nat → α) (r : Nat × Nat × Nat) :
    Nat → α :=
  slots.foldl (fun G nd => Function.update G (writeAt P odd r nd) (F (readAt P odd r nd))) F

/-- Modelled from the spec: a phase sweep, the update of every node of the domain in turn. -/
def sweep {α : Type} (P : Population) (odd : Bool) (F : Nat → α) : Nat → α :=
  (nodes P).foldl (nodeStep P odd) F

/-! ## The sub-expressions of the index functions -/

/-- The velocity-table index `!n*OFF_+d` of `AA_IndexRead`. -/
def tabIndexRead (P : Population) (n d : Nat) : Nat := u32 (u32 (lnot n * P.OFF_) + d)

/-- The velocity-table index `n*OFF_+d` of `AA_IndexWrite`. -/
def tabIndexWrite (P : Population) (n d : Nat) : Nat := u32 (u32 (n * P.OFF_) + d)

/-- The neighbour-array index `1 + O_E(odd, static_cast<int>(D[!n*OFF_+d]), 0)` of
`AA_IndexRead`, for the velocity table `D` of one axis. -/
def nbIndexRead (P : Population) (odd : Bool) (D : List Int) (n d : Nat) : Int :=
  1 + O_E odd (tab D (tabIndexRead P n d)) 0

/-- The neighbour-array index `1 + O_E(odd, static_cast<int>(D[n*OFF_+d]), 0)` of
`AA_IndexWrite`, for the velocity table `D` of one axis. -/
def nbIndexWrite (P : Population) (odd : Bool) (D : List Int) (n d : Nat) : Int :=
  1 + O_E odd (tab D (tabIndexWrite P n d)) 0

/-- The half index `O_E(odd, n, !n)` that `AA_IndexRead` passes to `SpatialToLinear`. -/
def halfRead (odd : Bool) (n : Nat) : Nat := O_E odd n (lnot n)

/-- The half index `O_E(odd, !n, n)` that `AA_IndexWrite` passes to `SpatialToLinear`. -/
def halfWrite (odd : Bool) (n : Nat) : Nat := O_E odd (lnot n) n

/-! ## Import of macroscopic values (`src/continuum/continuum_import.hpp`) -/

/-- How a call ends: it returns to the caller, or the process ends with an exit code. -/
inductive Outcome where
  | returned : Outcome
  | exited (code : Nat) : Outcome

/-- The exit code `EXIT_FAILURE` of `<cstdlib>`. -/
def EXIT_FAILURE : Nat := 1

/-- Modelled from the spec: the file system as a map from a path to the bytes of the file that
`fopen(path, "rb+")` opens, `none` when the file does not exist or cannot be opened. -/
abbrev FileSystem : Type := String → Option (List Nat)

/-- The path `OUTPUT_BIN_PATH + "/" + name + "_" + std::to_string(step) + ".bin"`. The constant
`OUTPUT_BIN_PATH` of `general/paths.hpp` is not among the sources and is a parameter. -/
def fileName (OUTPUT_BIN_PATH name : String) (step : Nat) : String :=
  OUTPUT_BIN_PATH ++ "/" ++ name ++ "_" ++ toString step ++ ".bin"

/-- The call `fread(M_, 1, size, file)` on a freshly opened file: the first
`min (length of the file) size` bytes of the buffer are replaced by those of the file. -/
def fread (M_ : List Nat) (size : Nat) (file : List Nat) : List Nat :=
  file.take size ++ M_.drop (min file.length size)

/-- The function `Continuum::Import`: its outcome and the bytes of the buffer `M_` when it
ends. The members `M_` and `MEM_SIZE_` of `Continuum` (declared outside the sources) are
parameters. Both calls of `fopen` see the same file system, so the second one opens the file
that the first one found. The value that `fread` returns is not looked at. -/
def Import (OUTPUT_BIN_PATH : String) (MEM_SIZE_ : Nat) (fs : FileSystem) (M_ : List Nat)
    (name : String) (step : Nat) : Outcome × List Nat :=
  match fs (fileName OUTPUT_BIN_PATH name step) with
  | some importFile => (Outcome.returned, fread M_ MEM_SIZE_ importFile)
  | none => (Outcome.exited EXIT_FAILURE, M_)

/-- A file system with one snapshot file, `out/field_5.bin`, of two bytes. -/
def oneFile : FileSystem := fun path => if path = "out/field_5.bin" then some [7, 8] else none

/-! ## Generic lattice layout -/

/-- A lattice class with `SPEEDS` and `PAD` given and the layout constants derived from them as
in `D3Q19.hpp`: `HSPEED = (SPEEDS + 1)/2`, `ND = SPEEDS + PAD`, `OFF = ND/2`. The tables, which
`SpatialToLinear` and `LinearToSpatial` do not use, are left empty. -/
def layout (SPEEDS PAD : Nat) : Lattice :=
  { DIM := 3, SPEEDS := SPEEDS, HSPEED := (SPEEDS + 1) / 2, PAD := PAD, ND := SPEEDS + PAD,
    OFF := (SPEEDS + PAD) / 2, DX := [], DY := [], DZ := [], W := [] }

/-! ## Cylinder geometry (`src/geometry/cylinder.hpp`) -/

/-- Subtraction `a - b` of two `unsigned int`: it wraps around when `a < b`. -/
def usub (a b : Nat) : Nat := (2 ^ 32 + a - b) % 2 ^ 32

/-- Modelled from the spec: the struct `boundaryElement<T>` of `population/boundary/boundary.hpp`
(not among the sources), the boundary element record with grid coordinates, prescribed density
and prescribed velocity, in the order of the initialiser `{x, y, z, RHO, U, V, W}`. -/
structure boundaryElement (T : Type) where
  x : Nat
  y : Nat
  z : Nat
  rho : T
  u : T
  v : T
  w : T

/-- The three output vectors `wall`, `inlet` and `outlet` of `Cylinder3D`. -/
structure Boundaries (T : Type) where
  wall : List (boundaryElement T)
  inlet : List (boundaryElement T)
  outlet : List (boundaryElement T)

/-- The test `(x-position[0])*(x-position[0]) + (y-position[1])*(y-position[1]) <= radius*radius`
of `Cylinder3D`, every operation in `unsigned int`. -/
def discTest (x y : Nat) (position : Arr3) (radius : Nat) : Bool :=
  decide (u32 (u32 (usub x (position 0) * usub x (position 0))
      + u32 (usub y (position 1) * usub y (position 1))) ≤ u32 (radius * radius))

/-- The body of the innermost loop of `Cylinder3D` at the node `(x, y, z)`. -/
def cylinderBody {T : Type} (NX NY NZ radius : Nat) (position : Arr3) (walls : Bool)
    (RHO U V W : T) (b : Boundaries T) (x y z : Nat) : Boundaries T :=
  let element : boundaryElement T := ⟨x, y, z, RHO, U, V, W⟩
  if discTest x y position radius = true then
    { b with wall := b.wall ++ [element] }
  else if y = 0 ∨ y = usub NY 1 ∨ z = 0 ∨ z = usub NZ 1 then
    if walls = true then { b with wall := b.wall ++ [element] } else b
  else if x = 0 then
    { b with inlet := b.inlet ++ [element] }
  else if x = usub NX 1 then
    { b with outlet := b.outlet ++ [element] }
  else b

/-- The function `Cylinder3D<NX,NY,NZ,T>`: its outcome and the three vectors when it ends. -/
def Cylinder3D {T : Type} (NX NY NZ radius : Nat) (position : Arr3) (orientation : String)
    (walls : Bool) (b : Boundaries T) (RHO U V W : T) : Outcome × Boundaries T :=
  if orientation = "x" then
    (Outcome.returned,
      (List.range NZ).foldl (fun b z =>
        (List.range NY).foldl (fun b y =>
          (List.range NX).foldl (fun b x =>
            cylinderBody NX NY NZ radius position walls RHO U V W b x y z) b) b) b)
  else (Outcome.exited EXIT_FAILURE, b)

/-- The grid nodes `(x, y, z)` in ascending order of `(z, y, x)`. -/
def grid (NX NY NZ : Nat) : List (Nat × Nat × Nat) :=
  (List.range NZ).flatMap fun z =>
    (List.range NY).flatMap fun y => (List.range NX).map fun x => (x, y, z)

/-- The node `r` comes before the node `s` in the order of `(z, y, x)`. -/
def before (r s : Nat × Nat × Nat) : Prop :=
  r.2.2 < s.2.2 ∨ (r.2.2 = s.2.2 ∧ (r.2.1 < s.2.1 ∨ (r.2.1 = s.2.1 ∧ r.1 < s.1)))

/-- The element `{x, y, z, RHO, U, V, W}` of the node `r = (x, y, z)`. -/
def elementAt {T : Type} (RHO U V W : T) (r : Nat × Nat × Nat) : boundaryElement T :=
  ⟨r.1, r.2.1, r.2.2, RHO, U, V, W⟩

/-- The node lies on one of the faces `y = 0`, `y = NY-1`, `z = 0`, `z = NZ-1`. -/
def onFace (NY NZ : Nat) (r : Nat × Nat × Nat) : Bool :=
  decide (r.2.1 = 0 ∨ r.2.1 = NY - 1 ∨ r.2.2 = 0 ∨ r.2.2 = NZ - 1)

/-- The disc `(x-px)^2 + (y-py)^2 ≤ radius^2` over the integers. -/
def inDisc (x y : Nat) (position : Arr3) (radius : Nat) : Prop :=
  ((x : Int) - (position 0 : Nat)) ^ 2 + ((y : Int) - (position 1 : Nat)) ^ 2
    ≤ (radius : Int) ^ 2

/-- The rule for `wall`: the node passes the disc test of the code, or it fails it, lies on a
face and `walls` is set. -/
def wallRule (NY NZ radius : Nat) (position : Arr3) (walls : Bool) (r : Nat × Nat × Nat) : Bool :=
  discTest r.1 r.2.1 position radius
    || (!discTest r.1 r.2.1 position radius && onFace NY NZ r && walls)

/-- The rule for `inlet`: the node fails the disc test, lies on no face and has `x = 0`. -/
def inletRule (NY NZ radius : Nat) (position : Arr3) (r : Nat × Nat × Nat) : Bool :=
  !discTest r.1 r.2.1 position radius && !onFace NY NZ r && decide (r.1 = 0)

/-- The rule for `outlet`: the node fails the disc test, lies on no face and has `x ≠ 0` and
`x = NX-1`. -/
def outletRule (NX NY NZ radius : Nat) (position : Arr3) (r : Nat × Nat × Nat) : Bool :=
  !discTest r.1 r.2.1 position radius && !onFace NY NZ r && decide (r.1 ≠ 0)
    && decide (r.1 = NX - 1)

/-! ## Arithmetic of mixed-radix offsets -/

theorem u32_of_lt {a : Nat} (h : a < 2 ^ 32) : u32 a = a := Nat.mod_eq_of_lt h

theorem mul_add_lt {q k a m : Nat} (hq : q < k) (ha : a < m) : q * m + a < k * m := by
  calc q * m + a < q * m + m := by omega
    _ = (q + 1) * m := by ring
    _ ≤ k * m := Nat.mul_le_mul_right m hq

theorem mul_add_div {q a m : Nat} (ha : a < m) : (q * m + a) / m = q := by
  have hm : 0 < m := by omega
  rw [Nat.add_comm, Nat.add_mul_div_right _ _ hm, Nat.div_eq_of_lt ha, Nat.zero_add]

theorem mul_add_mod {q a m : Nat} (ha : a < m) : (q * m + a) % m = a := by
  rw [Nat.add_comm, Nat.add_mul_mod_self_right, Nat.mod_eq_of_lt ha]

theorem mul_add_inj {q q' a a' m : Nat} (ha : a < m) (ha' : a' < m)
    (h : q * m + a = q' * m + a') : q = q' ∧ a = a' := by
  have h1 := congrArg (fun t => t / m) h
  have h2 := congrArg (fun t => t % m) h
  simp only [mul_add_div ha, mul_add_div ha', mul_add_mod ha, mul_add_mod ha'] at h1 h2
  exact ⟨h1, h2⟩

/-- The machine evaluation of `SpatialToLinear` is the exact value of its expression,
reduced modulo `2^32`. -/
theorem SpatialToLinear_eq_mod (P : Population) (x y z n d p : Nat) :
    P.SpatialToLinear x y z n d p = linearize P x y z n d p % 2 ^ 32 := by
  simp only [Population.SpatialToLinear, linearize, u32]
  simp [Nat.add_mod, Nat.mul_mod]

theorem linearize_lt (P : Population) {x y z n d p : Nat} (h : Valid P x y z n d p) :
    linearize P x y z n d p < bufferSize P := by
  obtain ⟨hx, hy, hz, hp, hs⟩ := h
  have h1 : z * P.NY + y < P.NZ * P.NY := mul_add_lt hz hy
  have h2 : (z * P.NY + y) * P.NX + x < P.NZ * P.NY * P.NX := mul_add_lt h1 hx
  have h3 : ((z * P.NY + y) * P.NX + x) * P.NPOP + p < P.NZ * P.NY * P.NX * P.NPOP :=
    mul_add_lt h2 hp
  have h4 := mul_add_lt h3 hs
  have e : P.NZ * P.NY * P.NX * P.NPOP * P.LT.ND = bufferSize P := by
    unfold bufferSize; ring
  rw [e] at h4
  unfold linearize
  omega

/-- Without wrap-around the machine evaluation is exact. -/
theorem SpatialToLinear_eq_linearize (P : Population) {x y z n d p : Nat}
    (h : Valid P x y z n d p) (hsize : bufferSize P ≤ 2 ^ 32) :
    P.SpatialToLinear x y z n d p = linearize P x y z n d p := by
  rw [SpatialToLinear_eq_mod]
  exact Nat.mod_eq_of_lt (lt_of_lt_of_le (linearize_lt P h) hsize)

/-- Round trip on the exact offsets, for a buffer of fewer than `2^32` entries. -/
theorem LinearToSpatial_linearize (P : Population) {x y z n d p : Nat}
    (h : Valid P x y z n d p) (hd : d < P.LT.OFF) (hd' : d < P.LT.SPEEDS)
    (hsize : bufferSize P < 2 ^ 32) :
    P.LinearToSpatial (linearize P x y z n d p) = some (x, y, z, p, n, d) := by
  obtain ⟨hx, hy, hz, hp, hs⟩ := h
  have hr3 : p * P.LT.ND + (n * P.LT.OFF + d) < P.LT.ND * P.NPOP := by
    have := mul_add_lt hp hs
    rwa [Nat.mul_comm P.NPOP] at this
  have hr2 : x * (P.LT.ND * P.NPOP) + (p * P.LT.ND + (n * P.LT.OFF + d))
      < P.LT.ND * P.NPOP * P.NX := by
    have := mul_add_lt hx hr3
    rwa [Nat.mul_comm P.NX] at this
  have hr1 : y * (P.LT.ND * P.NPOP * P.NX)
      + (x * (P.LT.ND * P.NPOP) + (p * P.LT.ND + (n * P.LT.OFF + d)))
      < P.LT.ND * P.NPOP * P.NX * P.NY := by
    have := mul_add_lt hy hr2
    rwa [Nat.mul_comm P.NY] at this
  have hr0 := mul_add_lt hz hr1
  have e0 : P.NZ * (P.LT.ND * P.NPOP * P.NX * P.NY) = bufferSize P := by
    unfold bufferSize; ring
  rw [e0] at hr0
  have hf1 : P.LT.ND * P.NPOP * P.NX * P.NY < 2 ^ 32 := by
    have : P.LT.ND * P.NPOP * P.NX * P.NY ≤ bufferSize P := by
      rw [← e0]; exact Nat.le_mul_of_pos_left _ (by omega)
    omega
  have hf2 : P.LT.ND * P.NPOP * P.NX < 2 ^ 32 := by
    have : P.LT.ND * P.NPOP * P.NX ≤ P.LT.ND * P.NPOP * P.NX * P.NY :=
      Nat.le_mul_of_pos_right _ (by omega)
    omega
  have hf3 : P.LT.ND * P.NPOP < 2 ^ 32 := by
    have : P.LT.ND * P.NPOP ≤ P.LT.ND * P.NPOP * P.NX :=
      Nat.le_mul_of_pos_right _ (by omega)
    omega
  have hz32 : z < 2 ^ 32 := by
    have : z * 1 ≤ z * (P.LT.ND * P.NPOP * P.NX * P.NY) := Nat.mul_le_mul_left z (by omega)
    omega
  have hy32 : y < 2 ^ 32 := by
    have : y * 1 ≤ y * (P.LT.ND * P.NPOP * P.NX) := Nat.mul_le_mul_left y (by omega)
    omega
  have hx32 : x < 2 ^ 32 := by
    have : x * 1 ≤ x * (P.LT.ND * P.NPOP) := Nat.mul_le_mul_left x (by omega)
    omega
  have hp32 : p < 2 ^ 32 := by
    have : p * 1 ≤ p * P.LT.ND := Nat.mul_le_mul_left p (by omega)
    omega
  have hn32 : n < 2 ^ 32 := by
    have : n * 1 ≤ n * P.LT.OFF := Nat.mul_le_mul_left n (by omega)
    omega
  have hd32 : d < 2 ^ 32 := by
    have : P.LT.ND * 1 ≤ P.LT.ND * P.NPOP := Nat.mul_le_mul_left _ (by omega)
    omega
  have e : linearize P x y z n d p = z * (P.LT.ND * P.NPOP * P.NX * P.NY)
      + (y * (P.LT.ND * P.NPOP * P.NX)
      + (x * (P.LT.ND * P.NPOP) + (p * P.LT.ND + (n * P.LT.OFF + d)))) := by
    unfold linearize; ring
  have hnz : ¬ (P.LT.ND * P.NPOP * P.NX * P.NY = 0 ∨ P.LT.ND * P.NPOP * P.NX = 0
      ∨ P.LT.ND * P.NPOP = 0 ∨ P.LT.ND = 0 ∨ P.LT.OFF = 0 ∨ P.LT.SPEEDS = 0) := by
    omega
  simp only [Population.LinearToSpatial, u32_of_lt hf3, u32_of_lt hf2, u32_of_lt hf1, e, hnz,
    if_false, mul_add_div hr1, mul_add_mod hr1, mul_add_div hr2, mul_add_mod hr2,
    mul_add_div hr3, mul_add_mod hr3, mul_add_div hs, mul_add_mod hs, mul_add_div hd,
    mul_add_mod hd, Nat.mod_eq_of_lt hd', u32_of_lt hz32, u32_of_lt hy32, u32_of_lt hx32,
    u32_of_lt hp32, u32_of_lt hn32, u32_of_lt hd32]

theorem exists_mul_add {m k i : Nat} (hm : 0 < m) (hi : i < k * m) :
    ∃ q a, q < k ∧ a < m ∧ q * m + a = i := by
  refine ⟨i / m, i % m, ?_, Nat.mod_lt _ hm, ?_⟩
  · exact (Nat.div_lt_iff_lt_mul hm).2 hi
  · rw [Nat.mul_comm]; exact Nat.div_add_mod i m

/-- On valid tuples of the D3Q19 population the exact offset determines the tuple. -/
theorem linearize_inj (NX NY NZ NPOP : Nat) {x y z n d p x' y' z' n' d' p' : Nat}
    (hx : x < NX) (hy : y < NY) (hp : p < NPOP) (hn : n < 2) (hd : d < 10)
    (hx' : x' < NX) (hy' : y' < NY) (hp' : p' < NPOP) (hn' : n' < 2) (hd' : d' < 10)
    (h : linearize (popD3Q19 NX NY NZ NPOP) x y z n d p
      = linearize (popD3Q19 NX NY NZ NPOP) x' y' z' n' d' p') :
    x = x' ∧ y = y' ∧ z = z' ∧ n = n' ∧ d = d' ∧ p = p' := by
  simp only [linearize, popD3Q19, D3Q19.model, D3Q19.ND, D3Q19.OFF, D3Q19.SPEEDS, D3Q19.PAD,
    Nat.add_assoc] at h
  norm_num at h
  obtain ⟨h1, h2⟩ := mul_add_inj (by omega : n * 10 + d < 20) (by omega : n' * 10 + d' < 20) h
  obtain ⟨h3, h4⟩ := mul_add_inj hp hp' h1
  obtain ⟨h5, h6⟩ := mul_add_inj hx hx' h3
  obtain ⟨h7, h8⟩ := mul_add_inj hy hy' h5
  refine ⟨h6, h8, h7, ?_, ?_, h4⟩ <;> omega

/-- Every offset below the buffer size is the exact offset of a valid D3Q19 tuple. -/
theorem linearize_surj (NX NY NZ NPOP : Nat) {i : Nat} (hi : i < NX * NY * NZ * NPOP * 20) :
    ∃ x y z n d p, x < NX ∧ y < NY ∧ z < NZ ∧ p < NPOP ∧ n < 2 ∧ d < 10 ∧
      linearize (popD3Q19 NX NY NZ NPOP) x y z n d p = i := by
  have hi' : i < NZ * NY * NX * NPOP * 20 := by
    have e : NZ * NY * NX * NPOP * 20 = NX * NY * NZ * NPOP * 20 := by ring
    omega
  obtain ⟨c, s, hc, hs, e1⟩ := exists_mul_add (by norm_num : 0 < 20) hi'
  have hNPOP : 0 < NPOP := by
    rcases Nat.eq_zero_or_pos NPOP with h0 | h0
    · subst h0; simp at hc
    · exact h0
  obtain ⟨b, p, hb, hp, e2⟩ := exists_mul_add hNPOP hc
  have hNX : 0 < NX := by
    rcases Nat.eq_zero_or_pos NX with h0 | h0
    · subst h0; simp at hb
    · exact h0
  obtain ⟨a, x, ha, hx, e3⟩ := exists_mul_add hNX hb
  have hNY : 0 < NY := by
    rcases Nat.eq_zero_or_pos NY with h0 | h0
    · subst h0; simp at ha
    · exact h0
  obtain ⟨z, y, hz, hy, e4⟩ := exists_mul_add hNY ha
  refine ⟨x, y, z, s / 10, s % 10, p, hx, hy, hz, hp, by omega, by omega, ?_⟩
  simp only [linearize, popD3Q19, D3Q19.model, D3Q19.ND, D3Q19.OFF, D3Q19.SPEEDS, D3Q19.PAD]
  norm_num
  rw [e4, e3, e2]
  omega

theorem valid_D3Q19 {NX NY NZ NPOP x y z n d p : Nat}
    (hx : x < NX) (hy : y < NY) (hz : z < NZ) (hp : p < NPOP) (hn : n < 2) (hd : d < 10) :
    Valid (popD3Q19 NX NY NZ NPOP) x y z n d p := by
  refine ⟨hx, hy, hz, hp, ?_⟩
  simp only [popD3Q19, D3Q19.model, D3Q19.ND, D3Q19.OFF, D3Q19.SPEEDS, D3Q19.PAD]
  omega

theorem bufferSize_D3Q19 (NX NY NZ NPOP : Nat) :
    bufferSize (popD3Q19 NX NY NZ NPOP) = NX * NY * NZ * NPOP * 20 := rfl

/-! ## The blend `O_E` and the four index functions -/

theorem O_E_int_false (a b : Int) : O_E false a b = b := by simp [O_E]

theorem O_E_int_true (a b : Int) : O_E true a b = a := by simp [O_E]

theorem O_E_nat_false (a b : Nat) : O_E false a b = b := by simp [O_E]

theorem O_E_nat_true (a b : Nat) : O_E true a b = a := by simp [O_E]

theorem Arr3.get_one (a : Arr3) : a.get 1 = a 1 := by simp [Arr3.get]

theorem lnot_of_lt_two {n : Nat} (hn : n < 2) : lnot n = 1 - n := by
  interval_cases n <;> rfl

theorem AA_IndexRead_even (P : Population) (x y z : Arr3) (n d p : Nat) :
    P.AA_IndexRead false x y z n d p = P.SpatialToLinear (x 1) (y 1) (z 1) (lnot n) d p := by
  simp only [Population.AA_IndexRead, O_E_int_false, O_E_nat_false, Int.add_zero, Arr3.get_one]

theorem AA_IndexWrite_even (P : Population) (x y z : Arr3) (n d p : Nat) :
    P.AA_IndexWrite false x y z n d p = P.SpatialToLinear (x 1) (y 1) (z 1) n d p := by
  simp only [Population.AA_IndexWrite, O_E_int_false, O_E_nat_false, Int.add_zero, Arr3.get_one]

theorem tabIndex_D3Q19 {n d : Nat} (hn : n < 2) (hd : d < 10) :
    u32 (u32 (n * 10) + d) = n * D3Q19.OFF + d := by
  have e : D3Q19.OFF = 10 := rfl
  rw [e]
  unfold u32
  omega

theorem AA_IndexRead_odd (NX NY NZ NPOP : Nat) (x y z : Arr3) {n d : Nat} (p : Nat)
    (hn : n < 2) (hd : d < 10) :
    (popD3Q19 NX NY NZ NPOP).AA_IndexRead true x y z n d p
      = (popD3Q19 NX NY NZ NPOP).SpatialToLinear (x.get (1 + cx (1 - n) d))
          (y.get (1 + cy (1 - n) d)) (z.get (1 + cz (1 - n) d)) n d p := by
  have h : u32 (u32 (lnot n * 10) + d) = (1 - n) * D3Q19.OFF + d := by
    rw [lnot_of_lt_two hn]; exact tabIndex_D3Q19 (by omega) hd
  have e : (popD3Q19 NX NY NZ NPOP).OFF_ = 10 := rfl
  simp only [Population.AA_IndexRead, O_E_int_true, O_E_nat_true, e, h]
  rfl

theorem AA_IndexWrite_odd (NX NY NZ NPOP : Nat) (x y z : Arr3) {n d : Nat} (p : Nat)
    (hn : n < 2) (hd : d < 10) :
    (popD3Q19 NX NY NZ NPOP).AA_IndexWrite true x y z n d p
      = (popD3Q19 NX NY NZ NPOP).SpatialToLinear (x.get (1 + cx n d))
          (y.get (1 + cy n d)) (z.get (1 + cz n d)) (1 - n) d p := by
  have e : (popD3Q19 NX NY NZ NPOP).OFF_ = 10 := rfl
  simp only [Population.AA_IndexWrite, O_E_int_true, O_E_nat_true, e, tabIndex_D3Q19 hn hd,
    lnot_of_lt_two hn]
  rfl

/-! ## The velocity set and periodic neighbours -/

theorem cx_mirror {n d : Nat} (hn : n < 2) (hd : d < 10) : cx (1 - n) d = - cx n d := by
  interval_cases n <;> interval_cases d <;> rfl

theorem cy_mirror {n d : Nat} (hn : n < 2) (hd : d < 10) : cy (1 - n) d = - cy n d := by
  interval_cases n <;> interval_cases d <;> rfl

theorem cz_mirror {n d : Nat} (hn : n < 2) (hd : d < 10) : cz (1 - n) d = - cz n d := by
  interval_cases n <;> interval_cases d <;> rfl

theorem cx_range {n d : Nat} (hn : n < 2) (hd : d < 10) :
    cx n d = -1 ∨ cx n d = 0 ∨ cx n d = 1 := by
  interval_cases n <;> interval_cases d <;> decide

theorem cy_range {n d : Nat} (hn : n < 2) (hd : d < 10) :
    cy n d = -1 ∨ cy n d = 0 ∨ cy n d = 1 := by
  interval_cases n <;> interval_cases d <;> decide

theorem cz_range {n d : Nat} (hn : n < 2) (hd : d < 10) :
    cz n d = -1 ∨ cz n d = 0 ∨ cz n d = 1 := by
  interval_cases n <;> interval_cases d <;> decide

theorem wrapAdd_cast {N : Nat} (hN : 0 < N) (c : Nat) (δ : Int) :
    ((wrapAdd N c δ : Nat) : Int) = ((c : Int) + δ) % (N : Int) := by
  unfold wrapAdd
  exact Int.toNat_of_nonneg (Int.emod_nonneg _ (by omega))

theorem wrapAdd_lt {N : Nat} (hN : 0 < N) (c : Nat) (δ : Int) : wrapAdd N c δ < N := by
  have h := wrapAdd_cast hN c δ
  have h2 : ((c : Int) + δ) % (N : Int) < N := Int.emod_lt_of_pos _ (by omega)
  omega

theorem wrapAdd_wrapAdd {N : Nat} (hN : 0 < N) (c : Nat) (δ ε : Int) :
    wrapAdd N (wrapAdd N c δ) ε = wrapAdd N c (δ + ε) := by
  have h : ((wrapAdd N (wrapAdd N c δ) ε : Nat) : Int) = ((wrapAdd N c (δ + ε) : Nat) : Int) := by
    rw [wrapAdd_cast hN, wrapAdd_cast hN, wrapAdd_cast hN, Int.emod_add_emod, Int.add_assoc]
  exact_mod_cast h

theorem wrapAdd_zero {N c : Nat} (hc : c < N) : wrapAdd N c 0 = c := by
  have h : ((wrapAdd N c 0 : Nat) : Int) = (c : Int) := by
    rw [wrapAdd_cast (by omega), Int.add_zero]
    exact Int.emod_eq_of_lt (by omega) (by omega)
  exact_mod_cast h

theorem wrapAdd_inj {N c c' : Nat} (hc : c < N) (hc' : c' < N) (δ : Int)
    (h : wrapAdd N c δ = wrapAdd N c' δ) : c = c' := by
  have hN : 0 < N := by omega
  have h2 := congrArg (fun t => wrapAdd N t (-δ)) h
  simp only [wrapAdd_wrapAdd hN, Int.add_right_neg, wrapAdd_zero hc, wrapAdd_zero hc'] at h2
  exact h2

/-- The entry `1 + δ` of the periodic neighbour array of `c` is `c + δ` wrapped. -/
theorem periodic_get {N c : Nat} (hc : c < N) {δ : Int} (hδ : δ = -1 ∨ δ = 0 ∨ δ = 1) :
    (periodic N c).get (1 + δ) = wrapAdd N c δ := by
  have hN : 0 < N := by omega
  have h : (((periodic N c).get (1 + δ) : Nat) : Int) = ((wrapAdd N c δ : Nat) : Int) := by
    rw [wrapAdd_cast hN]
    rcases hδ with h | h | h <;> subst h
    · have e : (periodic N c).get (1 + -1) = (c + N - 1) % N := by
        simp [Arr3.get, periodic]
      rw [e, Int.natCast_mod]
      have e2 : ((c + N - 1 : Nat) : Int) = (c : Int) + -1 + N := by omega
      rw [e2, Int.add_emod_self]
    · have e : (periodic N c).get (1 + 0) = c := by
        simp [Arr3.get, periodic]
      rw [e, Int.add_zero]
      exact (Int.emod_eq_of_lt (by omega) (by omega)).symm
    · have e : (periodic N c).get (1 + 1) = (c + 1) % N := by
        simp [Arr3.get, periodic]
      rw [e, Int.natCast_mod]
      simp
  exact_mod_cast h

theorem periodic_one (N c : Nat) : periodic N c 1 = c := by
  simp [periodic]

/-- The odd-step write at a node of the periodic domain, in wrapped coordinates. -/
theorem AA_IndexWrite_odd_periodic (NX NY NZ NPOP : Nat) {x y z n d : Nat} (p : Nat)
    (hx : x < NX) (hy : y < NY) (hz : z < NZ) (hn : n < 2) (hd : d < 10) :
    (popD3Q19 NX NY NZ NPOP).AA_IndexWrite true (periodic NX x) (periodic NY y) (periodic NZ z)
        n d p
      = (popD3Q19 NX NY NZ NPOP).SpatialToLinear (wrapAdd NX x (cx n d)) (wrapAdd NY y (cy n d))
          (wrapAdd NZ z (cz n d)) (1 - n) d p := by
  rw [AA_IndexWrite_odd _ _ _ _ _ _ _ p hn hd, periodic_get hx (cx_range hn hd),
    periodic_get hy (cy_range hn hd), periodic_get hz (cz_range hn hd)]

/-- The odd-step read at a node of the periodic domain, in wrapped coordinates. -/
theorem AA_IndexRead_odd_periodic (NX NY NZ NPOP : Nat) {x y z n d : Nat} (p : Nat)
    (hx : x < NX) (hy : y < NY) (hz : z < NZ) (hn : n < 2) (hd : d < 10) :
    (popD3Q19 NX NY NZ NPOP).AA_IndexRead true (periodic NX x) (periodic NY y) (periodic NZ z)
        n d p
      = (popD3Q19 NX NY NZ NPOP).SpatialToLinear (wrapAdd NX x (- cx n d))
          (wrapAdd NY y (- cy n d)) (wrapAdd NZ z (- cz n d)) n d p := by
  have h1 : (1 : Nat) - n < 2 := by omega
  rw [AA_IndexRead_odd _ _ _ _ _ _ _ p hn hd, periodic_get hx (cx_range h1 hd),
    periodic_get hy (cy_range h1 hd), periodic_get hz (cz_range h1 hd),
    cx_mirror hn hd, cy_mirror hn hd, cz_mirror hn hd]

/-! ## The write offsets of one phase -/

/-- Without wrap-around, equal machine offsets of valid D3Q19 tuples are equal tuples. -/
theorem SpatialToLinear_inj (NX NY NZ NPOP : Nat) (hsize : NX * NY * NZ * NPOP * 20 ≤ 2 ^ 32)
    {x y z n d p x' y' z' n' d' p' : Nat}
    (hx : x < NX) (hy : y < NY) (hz : z < NZ) (hp : p < NPOP) (hn : n < 2) (hd : d < 10)
    (hx' : x' < NX) (hy' : y' < NY) (hz' : z' < NZ) (hp' : p' < NPOP) (hn' : n' < 2)
    (hd' : d' < 10)
    (h : (popD3Q19 NX NY NZ NPOP).SpatialToLinear x y z n d p
      = (popD3Q19 NX NY NZ NPOP).SpatialToLinear x' y' z' n' d' p') :
    x = x' ∧ y = y' ∧ z = z' ∧ n = n' ∧ d = d' ∧ p = p' := by
  rw [SpatialToLinear_eq_linearize _ (valid_D3Q19 hx hy hz hp hn hd) hsize,
    SpatialToLinear_eq_linearize _ (valid_D3Q19 hx' hy' hz' hp' hn' hd') hsize] at h
  exact linearize_inj NX NY NZ NPOP hx hy hp hn hd hx' hy' hp' hn' hd' h

/-- Without wrap-around the write offsets of one phase and one population are pairwise
distinct. -/
theorem AA_IndexWrite_inj (odd : Bool) (NX NY NZ NPOP p : Nat)
    (hsize : NX * NY * NZ * NPOP * 20 ≤ 2 ^ 32) (hp : p < NPOP)
    {x y z n d x' y' z' n' d' : Nat}
    (hx : x < NX) (hy : y < NY) (hz : z < NZ) (hn : n < 2) (hd : d < 10)
    (hx' : x' < NX) (hy' : y' < NY) (hz' : z' < NZ) (hn' : n' < 2) (hd' : d' < 10)
    (h : (popD3Q19 NX NY NZ NPOP).AA_IndexWrite odd (periodic NX x) (periodic NY y)
        (periodic NZ z) n d p
      = (popD3Q19 NX NY NZ NPOP).AA_IndexWrite odd (periodic NX x') (periodic NY y')
        (periodic NZ z') n' d' p) :
    x = x' ∧ y = y' ∧ z = z' ∧ n = n' ∧ d = d' := by
  have hNX : 0 < NX := by omega
  have hNY : 0 < NY := by omega
  have hNZ : 0 < NZ := by omega
  cases odd
  · rw [AA_IndexWrite_even, AA_IndexWrite_even] at h
    simp only [periodic_one] at h
    obtain ⟨h1, h2, h3, h4, h5, _⟩ :=
      SpatialToLinear_inj NX NY NZ NPOP hsize hx hy hz hp hn hd hx' hy' hz' hp hn' hd' h
    exact ⟨h1, h2, h3, h4, h5⟩
  · rw [AA_IndexWrite_odd_periodic NX NY NZ NPOP p hx hy hz hn hd,
      AA_IndexWrite_odd_periodic NX NY NZ NPOP p hx' hy' hz' hn' hd'] at h
    obtain ⟨h1, h2, h3, h4, h5, _⟩ :=
      SpatialToLinear_inj NX NY NZ NPOP hsize (wrapAdd_lt hNX _ _) (wrapAdd_lt hNY _ _)
        (wrapAdd_lt hNZ _ _) hp (by omega : 1 - n < 2) hd (wrapAdd_lt hNX _ _)
        (wrapAdd_lt hNY _ _) (wrapAdd_lt hNZ _ _) hp (by omega : 1 - n' < 2) hd' h
    have hnn : n = n' := by omega
    subst hnn
    subst h5
    exact ⟨wrapAdd_inj hx hx' _ h1, wrapAdd_inj hy hy' _ h2, wrapAdd_inj hz hz' _ h3, rfl, rfl⟩

/-- The write offsets of one phase and one population are exactly the offsets of that
population. -/
theorem AA_IndexWrite_image (odd : Bool) (NX NY NZ NPOP p i : Nat) :
    (∃ x y z n d, x < NX ∧ y < NY ∧ z < NZ ∧ n < 2 ∧ d < 10 ∧
      (popD3Q19 NX NY NZ NPOP).AA_IndexWrite odd (periodic NX x) (periodic NY y)
        (periodic NZ z) n d p = i) ↔
    (∃ x y z n d, x < NX ∧ y < NY ∧ z < NZ ∧ n < 2 ∧ d < 10 ∧
      (popD3Q19 NX NY NZ NPOP).SpatialToLinear x y z n d p = i) := by
  cases odd
  · simp only [AA_IndexWrite_even, periodic_one]
  · constructor
    · rintro ⟨x, y, z, n, d, hx, hy, hz, hn, hd, rfl⟩
      refine ⟨wrapAdd NX x (cx n d), wrapAdd NY y (cy n d), wrapAdd NZ z (cz n d), 1 - n, d,
        wrapAdd_lt (by omega) _ _, wrapAdd_lt (by omega) _ _, wrapAdd_lt (by omega) _ _,
        by omega, hd, ?_⟩
      rw [AA_IndexWrite_odd_periodic NX NY NZ NPOP p hx hy hz hn hd]
    · rintro ⟨x, y, z, n, d, hx, hy, hz, hn, hd, rfl⟩
      have hNX : 0 < NX := by omega
      have hNY : 0 < NY := by omega
      have hNZ : 0 < NZ := by omega
      have h1 : (1 : Nat) - n < 2 := by omega
      refine ⟨wrapAdd NX x (- cx (1 - n) d), wrapAdd NY y (- cy (1 - n) d),
        wrapAdd NZ z (- cz (1 - n) d), 1 - n, d,
        wrapAdd_lt hNX _ _, wrapAdd_lt hNY _ _, wrapAdd_lt hNZ _ _, h1, hd, ?_⟩
      rw [AA_IndexWrite_odd_periodic NX NY NZ NPOP p (wrapAdd_lt hNX _ _) (wrapAdd_lt hNY _ _)
        (wrapAdd_lt hNZ _ _) h1 hd]
      simp only [wrapAdd_wrapAdd hNX, wrapAdd_wrapAdd hNY, wrapAdd_wrapAdd hNZ,
        Int.add_left_neg, wrapAdd_zero hx, wrapAdd_zero hy, wrapAdd_zero hz]
      have e : 1 - (1 - n) = n := by omega
      rw [e]

/-! ## Sequential sweeps -/

theorem foldl_update_of_ne {ι α : Type} (k : ι → Nat) (v : ι → α) (L : List ι) (G : Nat → α)
    (i : Nat) (h : ∀ a ∈ L, k a ≠ i) :
    L.foldl (fun G a => Function.update G (k a) (v a)) G i = G i := by
  induction L generalizing G with
  | nil => rfl
  | cons b L ih =>
    rw [List.foldl_cons, ih _ (fun a ha => h a (List.mem_cons_of_mem _ ha))]
    exact Function.update_noteq (Ne.symm (h b (List.mem_cons_self _ _))) _ _

theorem foldl_update_of_mem {ι α : Type} (k : ι → Nat) (v : ι → α) (L : List ι) (G : Nat → α)
    (i : Nat) (w : α) (hv : ∀ a ∈ L, k a = i → v a = w) (hex : ∃ a ∈ L, k a = i) :
    L.foldl (fun G a => Function.update G (k a) (v a)) G i = w := by
  induction L generalizing G with
  | nil =>
    obtain ⟨a, ha, _⟩ := hex
    cases ha
  | cons b L ih =>
    rw [List.foldl_cons]
    by_cases hL : ∃ a ∈ L, k a = i
    · exact ih _ (fun a ha => hv a (List.mem_cons_of_mem _ ha)) hL
    · have hb : k b = i := by
        obtain ⟨a, ha, hka⟩ := hex
        rcases List.mem_cons.1 ha with rfl | ha'
        · exact hka
        · exact absurd ⟨a, ha', hka⟩ hL
      rw [foldl_update_of_ne k v L _ i (fun a ha hka => hL ⟨a, ha, hka⟩)]
      subst hb
      rw [Function.update_same]
      exact hv b (List.mem_cons_self _ _) rfl

theorem nodeStep_of_ne {α : Type} (P : Population) (odd : Bool) (F : Nat → α)
    (r : Nat × Nat × Nat) (i : Nat) (h : ∀ nd ∈ slots, writeAt P odd r nd ≠ i) :
    nodeStep P odd F r i = F i :=
  foldl_update_of_ne _ _ _ _ _ h

theorem nodeStep_of_mem {α : Type} (P : Population) (odd : Bool) (F : Nat → α)
    (r : Nat × Nat × Nat) (i : Nat) (w : α)
    (hv : ∀ nd ∈ slots, writeAt P odd r nd = i → F (readAt P odd r nd) = w)
    (hex : ∃ nd ∈ slots, writeAt P odd r nd = i) :
    nodeStep P odd F r i = w :=
  foldl_update_of_mem _ _ _ _ _ _ hv hex

theorem foldl_nodeStep_of_ne {α : Type} (P : Population) (odd : Bool)
    (L : List (Nat × Nat × Nat)) (F : Nat → α) (i : Nat)
    (h : ∀ r ∈ L, ∀ nd ∈ slots, writeAt P odd r nd ≠ i) :
    L.foldl (nodeStep P odd) F i = F i := by
  induction L generalizing F with
  | nil => rfl
  | cons r0 L ih =>
    rw [List.foldl_cons, ih _ (fun r hr => h r (List.mem_cons_of_mem _ hr))]
    exact nodeStep_of_ne P odd F r0 i (h r0 (List.mem_cons_self _ _))

/-- A sweep over distinct nodes whose write offsets are pairwise distinct and whose reads stay
inside the node's own write set moves the value at each read offset to the write offset. -/
theorem foldl_nodeStep_write {α : Type} (P : Population) (odd : Bool)
    (L : List (Nat × Nat × Nat)) (hL : L.Nodup)
    (hinj : ∀ r ∈ L, ∀ r' ∈ L, ∀ nd ∈ slots, ∀ nd' ∈ slots,
      writeAt P odd r nd = writeAt P odd r' nd' → r = r' ∧ nd = nd')
    (hin : ∀ r ∈ L, ∀ nd ∈ slots, ∃ nd' ∈ slots, readAt P odd r nd = writeAt P odd r nd')
    (F : Nat → α) (r : Nat × Nat × Nat) (hr : r ∈ L) (nd : Nat × Nat) (hnd : nd ∈ slots) :
    L.foldl (nodeStep P odd) F (writeAt P odd r nd) = F (readAt P odd r nd) := by
  induction L generalizing F with
  | nil => cases hr
  | cons r0 L ih =>
    rw [List.foldl_cons]
    obtain ⟨hr0, hL'⟩ := List.nodup_cons.1 hL
    have h0 : r0 ∈ r0 :: L := List.mem_cons_self _ _
    rcases List.mem_cons.1 hr with rfl | hr'
    · rw [foldl_nodeStep_of_ne P odd L _ _ (fun r' hr' nd' hnd' e =>
        hr0 ((hinj r' (List.mem_cons_of_mem _ hr') r h0 nd' hnd' nd hnd e).1 ▸ hr'))]
      exact nodeStep_of_mem P odd F r _ _
        (fun nd' hnd' e => by rw [(hinj r h0 r h0 nd' hnd' nd hnd e).2]) ⟨nd, hnd, rfl⟩
    · have hrL : r ∈ r0 :: L := List.mem_cons_of_mem _ hr'
      rw [ih hL'
        (fun a ha b hb => hinj a (List.mem_cons_of_mem _ ha) b (List.mem_cons_of_mem _ hb))
        (fun a ha => hin a (List.mem_cons_of_mem _ ha)) _ hr']
      obtain ⟨nd', hnd', e⟩ := hin r hrL nd hnd
      rw [e]
      exact nodeStep_of_ne P odd F r0 _ (fun nd'' hnd'' e' =>
        hr0 ((hinj r0 h0 r hrL nd'' hnd'' nd' hnd' e').1 ▸ hr'))

theorem mem_slots (nd : Nat × Nat) : nd ∈ slots ↔ nd.1 < 2 ∧ nd.2 < 10 := by
  obtain ⟨n, d⟩ := nd
  simp only [slots, List.mem_flatMap, List.mem_map, List.mem_range, Prod.mk.injEq]
  constructor
  · rintro ⟨a, ha, b, hb, rfl, rfl⟩
    exact ⟨ha, hb⟩
  · rintro ⟨hn, hd⟩
    exact ⟨n, hn, d, hd, rfl, rfl⟩

theorem mem_nodes (P : Population) (r : Nat × Nat × Nat) :
    r ∈ nodes P ↔ r.1 < P.NX ∧ r.2.1 < P.NY ∧ r.2.2 < P.NZ := by
  obtain ⟨x, y, z⟩ := r
  simp only [nodes, List.mem_flatMap, List.mem_map, List.mem_range, Prod.mk.injEq]
  constructor
  · rintro ⟨c, hc, b, hb, a, ha, rfl, rfl, rfl⟩
    exact ⟨ha, hb, hc⟩
  · rintro ⟨hx, hy, hz⟩
    exact ⟨z, hz, y, hy, x, hx, rfl, rfl, rfl⟩

theorem nodup_nodes (P : Population) : (nodes P).Nodup := by
  unfold nodes
  rw [List.nodup_flatMap]
  refine ⟨fun z _ => ?_, ?_⟩
  · rw [List.nodup_flatMap]
    refine ⟨fun y _ => ?_, ?_⟩
    · refine List.Nodup.map ?_ (List.nodup_range _)
      intro a b h
      exact (Prod.mk.injEq _ _ _ _ ▸ h).1
    · refine (List.pairwise_lt_range P.NY).imp ?_
      intro a b hab
      simp only [Function.onFun, List.disjoint_left, List.mem_map, List.mem_range]
      rintro r ⟨x, _, rfl⟩ ⟨x', _, h⟩
      simp only [Prod.mk.injEq] at h
      omega
  · refine (List.pairwise_lt_range P.NZ).imp ?_
    intro a b hab
    simp only [Function.onFun, List.disjoint_left, List.mem_flatMap, List.mem_map,
      List.mem_range]
    rintro r ⟨y, _, x, _, rfl⟩ ⟨y', _, x', _, h⟩
    simp only [Prod.mk.injEq] at h
    omega

/-- In both phases the read offset of `(n, d)` is the write offset of `(1-n, d)` at the same
node. -/
theorem AA_IndexRead_eq_Write (P : Population) (odd : Bool) (x y z : Arr3) {n : Nat} (d p : Nat)
    (hn : n < 2) :
    P.AA_IndexRead odd x y z n d p = P.AA_IndexWrite odd x y z (1 - n) d p := by
  interval_cases n <;> rfl

theorem sweep_const {α : Type} (P : Population) (odd : Bool) (v : α) :
    sweep P odd (fun _ => v) = fun _ => v := by
  have hnode : ∀ r, nodeStep P odd (fun _ => v) r = fun _ => v := by
    intro r
    unfold nodeStep
    induction slots with
    | nil => rfl
    | cons nd L ih =>
      rw [List.foldl_cons]
      have e : Function.update (fun _ : Nat => v) (writeAt P odd r nd) v = fun _ => v :=
        Function.update_eq_self (writeAt P odd r nd) (fun _ : Nat => v)
      rw [e]
      exact ih
  unfold sweep
  induction nodes P with
  | nil => rfl
  | cons r L ih => rw [List.foldl_cons, hnode r]; exact ih

/-- Without wrap-around one sweep moves the value at every read offset to the corresponding
write offset. -/
theorem sweep_write {α : Type} (odd : Bool) (NX NY NZ : Nat)
    (hsize : NX * NY * NZ * 20 ≤ 2 ^ 32) (F : Nat → α) {x y z n d : Nat}
    (hx : x < NX) (hy : y < NY) (hz : z < NZ) (hn : n < 2) (hd : d < 10) :
    sweep (popD3Q19 NX NY NZ 1) odd F
        ((popD3Q19 NX NY NZ 1).AA_IndexWrite odd (periodic NX x) (periodic NY y) (periodic NZ z)
          n d 0)
      = F ((popD3Q19 NX NY NZ 1).AA_IndexRead odd (periodic NX x) (periodic NY y)
          (periodic NZ z) n d 0) := by
  have hsize' : NX * NY * NZ * 1 * 20 ≤ 2 ^ 32 := by omega
  refine foldl_nodeStep_write (popD3Q19 NX NY NZ 1) odd _ (nodup_nodes _) ?_ ?_ F (x, y, z)
    ((mem_nodes _ _).2 ⟨hx, hy, hz⟩) (n, d) ((mem_slots _).2 ⟨hn, hd⟩)
  · rintro ⟨a, b, c⟩ hr ⟨a', b', c'⟩ hr' ⟨m, e⟩ hnd ⟨m', e'⟩ hnd' h
    obtain ⟨ha, hb, hc⟩ := (mem_nodes _ _).1 hr
    obtain ⟨ha', hb', hc'⟩ := (mem_nodes _ _).1 hr'
    obtain ⟨hm, he⟩ := (mem_slots _).1 hnd
    obtain ⟨hm', he'⟩ := (mem_slots _).1 hnd'
    obtain ⟨h1, h2, h3, h4, h5⟩ := AA_IndexWrite_inj odd NX NY NZ 1 0 hsize' (by omega)
      ha hb hc hm he ha' hb' hc' hm' he' h
    exact ⟨Prod.ext h1 (Prod.ext h2 h3), Prod.ext h4 h5⟩
  · rintro ⟨a, b, c⟩ _ ⟨m, e⟩ hnd
    obtain ⟨hm, he⟩ := (mem_slots _).1 hnd
    exact ⟨(1 - m, e), (mem_slots _).2 ⟨by show 1 - m < 2; omega, he⟩,
      AA_IndexRead_eq_Write _ odd _ _ _ e 0 hm⟩

/-- Without wrap-around, after an even sweep and an odd sweep the slot `(m, d)` of the node
`(x, y, z)` holds the initial value of the same slot of the node two steps along the
velocity. -/
theorem cycle_value {α : Type} (NX NY NZ : Nat) (hsize : NX * NY * NZ * 20 ≤ 2 ^ 32)
    (F : Nat → α) {x y z m d : Nat}
    (hx : x < NX) (hy : y < NY) (hz : z < NZ) (hm : m < 2) (hd : d < 10) :
    sweep (popD3Q19 NX NY NZ 1) true (sweep (popD3Q19 NX NY NZ 1) false F)
        ((popD3Q19 NX NY NZ 1).SpatialToLinear x y z m d 0)
      = F ((popD3Q19 NX NY NZ 1).SpatialToLinear (wrapAdd NX x (2 * cx m d))
          (wrapAdd NY y (2 * cy m d)) (wrapAdd NZ z (2 * cz m d)) m d 0) := by
  have hNX : 0 < NX := by omega
  have hNY : 0 < NY := by omega
  have hNZ : 0 < NZ := by omega
  have h1 : (1 : Nat) - m < 2 := by omega
  have e1 : 1 - (1 - m) = m := by omega
  -- the odd-step writer of the slot is the node one step along the velocity, for `(1-m, d)`
  have hw := AA_IndexWrite_odd_periodic NX NY NZ 1 0 (wrapAdd_lt hNX x (cx m d))
    (wrapAdd_lt hNY y (cy m d)) (wrapAdd_lt hNZ z (cz m d)) h1 hd
  simp only [wrapAdd_wrapAdd hNX, wrapAdd_wrapAdd hNY, wrapAdd_wrapAdd hNZ, cx_mirror hm hd,
    cy_mirror hm hd, cz_mirror hm hd, Int.add_right_neg, wrapAdd_zero hx, wrapAdd_zero hy,
    wrapAdd_zero hz, e1] at hw
  rw [← hw, sweep_write true NX NY NZ hsize _ (wrapAdd_lt hNX x (cx m d))
    (wrapAdd_lt hNY y (cy m d)) (wrapAdd_lt hNZ z (cz m d)) h1 hd,
    AA_IndexRead_odd_periodic NX NY NZ 1 0 (wrapAdd_lt hNX x (cx m d))
    (wrapAdd_lt hNY y (cy m d)) (wrapAdd_lt hNZ z (cz m d)) h1 hd]
  simp only [wrapAdd_wrapAdd hNX, wrapAdd_wrapAdd hNY, wrapAdd_wrapAdd hNZ, cx_mirror hm hd,
    cy_mirror hm hd, cz_mirror hm hd, neg_neg, ← two_mul]
  -- the even-step writer of that slot is its own node
  have hw2 := AA_IndexWrite_even (popD3Q19 NX NY NZ 1) (periodic NX (wrapAdd NX x (2 * cx m d)))
    (periodic NY (wrapAdd NY y (2 * cy m d))) (periodic NZ (wrapAdd NZ z (2 * cz m d)))
    (1 - m) d 0
  simp only [periodic_one] at hw2
  rw [← hw2, sweep_write false NX NY NZ hsize _ (wrapAdd_lt hNX x _) (wrapAdd_lt hNY y _)
    (wrapAdd_lt hNZ z _) h1 hd, AA_IndexRead_even, lnot_of_lt_two h1, e1]
  simp only [periodic_one]

/-! ## Sub-expressions of the index functions -/

theorem AA_IndexRead_parts (P : Population) (odd : Bool) (x y z : Arr3) (n d p : Nat) :
    P.AA_IndexRead odd x y z n d p
      = P.SpatialToLinear (x.get (nbIndexRead P odd P.LT.DX n d))
          (y.get (nbIndexRead P odd P.LT.DY n d)) (z.get (nbIndexRead P odd P.LT.DZ n d))
          (halfRead odd n) d p := rfl

theorem AA_IndexWrite_parts (P : Population) (odd : Bool) (x y z : Arr3) (n d p : Nat) :
    P.AA_IndexWrite odd x y z n d p
      = P.SpatialToLinear (x.get (nbIndexWrite P odd P.LT.DX n d))
          (y.get (nbIndexWrite P odd P.LT.DY n d)) (z.get (nbIndexWrite P odd P.LT.DZ n d))
          (halfWrite odd n) d p := rfl

theorem halfRead_false {n : Nat} (hn : n < 2) : halfRead false n = 1 - n := by
  rw [halfRead, O_E_nat_false, lnot_of_lt_two hn]

theorem halfRead_true (n : Nat) : halfRead true n = n := by
  rw [halfRead, O_E_nat_true]

theorem halfWrite_false (n : Nat) : halfWrite false n = n := by
  rw [halfWrite, O_E_nat_false]

theorem halfWrite_true {n : Nat} (hn : n < 2) : halfWrite true n = 1 - n := by
  rw [halfWrite, O_E_nat_true, lnot_of_lt_two hn]

theorem tabIndexRead_D3Q19 (NX NY NZ NPOP : Nat) {n d : Nat} (hn : n < 2) (hd : d < 10) :
    tabIndexRead (popD3Q19 NX NY NZ NPOP) n d = (1 - n) * D3Q19.OFF + d := by
  have e : (popD3Q19 NX NY NZ NPOP).OFF_ = 10 := rfl
  rw [tabIndexRead, e, lnot_of_lt_two hn]
  exact tabIndex_D3Q19 (by omega) hd

theorem tabIndexWrite_D3Q19 (NX NY NZ NPOP : Nat) {n d : Nat} (hn : n < 2) (hd : d < 10) :
    tabIndexWrite (popD3Q19 NX NY NZ NPOP) n d = n * D3Q19.OFF + d := by
  have e : (popD3Q19 NX NY NZ NPOP).OFF_ = 10 := rfl
  rw [tabIndexWrite, e]
  exact tabIndex_D3Q19 hn hd

theorem nbIndexRead_even (P : Population) (D : List Int) (n d : Nat) :
    nbIndexRead P false D n d = 1 := by
  rw [nbIndexRead, O_E_int_false, Int.add_zero]

theorem nbIndexWrite_even (P : Population) (D : List Int) (n d : Nat) :
    nbIndexWrite P false D n d = 1 := by
  rw [nbIndexWrite, O_E_int_false, Int.add_zero]

theorem nbIndexRead_odd (NX NY NZ NPOP : Nat) (D : List Int) {n d : Nat}
    (hn : n < 2) (hd : d < 10) :
    nbIndexRead (popD3Q19 NX NY NZ NPOP) true D n d = 1 + tab D ((1 - n) * D3Q19.OFF + d) := by
  rw [nbIndexRead, O_E_int_true, tabIndexRead_D3Q19 NX NY NZ NPOP hn hd]

theorem nbIndexWrite_odd (NX NY NZ NPOP : Nat) (D : List Int) {n d : Nat}
    (hn : n < 2) (hd : d < 10) :
    nbIndexWrite (popD3Q19 NX NY NZ NPOP) true D n d = 1 + tab D (n * D3Q19.OFF + d) := by
  rw [nbIndexWrite, O_E_int_true, tabIndexWrite_D3Q19 NX NY NZ NPOP hn hd]

/-- The three velocity tables of D3Q19 are mirrored and their entries are -1, 0 or 1. -/
theorem tables_D3Q19 {D : List Int} (hD : D ∈ [D3Q19.DX, D3Q19.DY, D3Q19.DZ]) {n d : Nat}
    (hn : n < 2) (hd : d < 10) :
    tab D ((1 - n) * D3Q19.OFF + d) = - tab D (n * D3Q19.OFF + d) ∧
    (tab D (n * D3Q19.OFF + d) = -1 ∨ tab D (n * D3Q19.OFF + d) = 0
      ∨ tab D (n * D3Q19.OFF + d) = 1) := by
  simp only [List.mem_cons, List.mem_singleton, List.not_mem_nil, or_false] at hD
  rcases hD with h | h | h <;> subst h
  · exact ⟨cx_mirror hn hd, cx_range hn hd⟩
  · exact ⟨cy_mirror hn hd, cy_range hn hd⟩
  · exact ⟨cz_mirror hn hd, cz_range hn hd⟩

theorem Arr3.get_lt {a : Arr3} {N : Nat} (ha : ∀ j, a j < N) {i : Int}
    (hi : i = 0 ∨ i = 1 ∨ i = 2) : a.get i < N := by
  rcases hi with h | h | h <;> subst h <;> simp [Arr3.get, ha]

/-- The machine offset of a valid tuple is inside the buffer, with or without wrap-around. -/
theorem SpatialToLinear_lt (P : Population) {x y z n d p : Nat} (h : Valid P x y z n d p) :
    P.SpatialToLinear x y z n d p < bufferSize P := by
  rw [SpatialToLinear_eq_mod]
  exact lt_of_le_of_lt (Nat.mod_le _ _) (linearize_lt P h)

/-! ## Import -/

theorem Import_of_some (OUTPUT_BIN_PATH : String) (MEM_SIZE_ : Nat) (fs : FileSystem)
    (M_ : List Nat) (name : String) (step : Nat) {file : List Nat}
    (h : fs (fileName OUTPUT_BIN_PATH name step) = some file) :
    Import OUTPUT_BIN_PATH MEM_SIZE_ fs M_ name step
      = (Outcome.returned, fread M_ MEM_SIZE_ file) := by
  simp only [Import, h]

theorem Import_of_none (OUTPUT_BIN_PATH : String) (MEM_SIZE_ : Nat) (fs : FileSystem)
    (M_ : List Nat) (name : String) (step : Nat)
    (h : fs (fileName OUTPUT_BIN_PATH name step) = none) :
    Import OUTPUT_BIN_PATH MEM_SIZE_ fs M_ name step = (Outcome.exited EXIT_FAILURE, M_) := by
  simp only [Import, h]

theorem fread_short (M_ : List Nat) {size : Nat} {file : List Nat} (h : file.length < size) :
    fread M_ size file = file ++ M_.drop file.length := by
  rw [fread, List.take_of_length_le (by omega), Nat.min_eq_left (by omega)]

/-! ## Generic lattice layout -/

/-- With `OFF = ND/2` and `HSPEED = (SPEEDS+1)/2 ≤ OFF`, a pair `n ∈ {0,1}`, `d < HSPEED` is a
slot of the node, below `OFF` and below `SPEEDS`. -/
theorem slot_of_layout {LT : Lattice} (hOFF : LT.OFF = LT.ND / 2)
    (hHS : LT.HSPEED = (LT.SPEEDS + 1) / 2) (hle : LT.HSPEED ≤ LT.OFF) {n d : Nat}
    (hn : n < 2) (hd : d < LT.HSPEED) :
    n * LT.OFF + d < LT.ND ∧ d < LT.OFF ∧ d < LT.SPEEDS := by
  refine ⟨?_, by omega, by omega⟩
  interval_cases n <;> omega

/-! ## Cylinder geometry -/

theorem usub_one {N : Nat} (h1 : 1 ≤ N) (h2 : N ≤ 2 ^ 32) : usub N 1 = N - 1 := by
  unfold usub
  omega

theorem foldl_flatMap_eq {α β γ : Type} (f : γ → β → γ) (g : α → List β) (L : List α) (c : γ) :
    (L.flatMap g).foldl f c = L.foldl (fun c a => (g a).foldl f c) c := by
  induction L generalizing c with
  | nil => rfl
  | cons a L ih => rw [List.flatMap_cons, List.foldl_append, ih, List.foldl_cons]

/-- The three nested loops visit the grid in its order. -/
theorem foldl_grid {γ : Type} (f : γ → Nat → Nat → Nat → γ) (NX NY NZ : Nat) (c : γ) :
    (List.range NZ).foldl (fun c z =>
        (List.range NY).foldl (fun c y => (List.range NX).foldl (fun c x => f c x y z) c) c) c
      = (grid NX NY NZ).foldl (fun c r => f c r.1 r.2.1 r.2.2) c := by
  unfold grid
  rw [foldl_flatMap_eq]
  congr 1
  funext c z
  rw [foldl_flatMap_eq]
  congr 1
  funext c y
  rw [List.foldl_map]

theorem mem_grid (NX NY NZ : Nat) (r : Nat × Nat × Nat) :
    r ∈ grid NX NY NZ ↔ r.1 < NX ∧ r.2.1 < NY ∧ r.2.2 < NZ := by
  obtain ⟨x, y, z⟩ := r
  simp only [grid, List.mem_flatMap, List.mem_map, List.mem_range, Prod.mk.injEq]
  constructor
  · rintro ⟨c, hc, b, hb, a, ha, rfl, rfl, rfl⟩
    exact ⟨ha, hb, hc⟩
  · rintro ⟨hx, hy, hz⟩
    exact ⟨z, hz, y, hy, x, hx, rfl, rfl, rfl⟩

theorem pairwise_grid (NX NY NZ : Nat) : (grid NX NY NZ).Pairwise before := by
  unfold grid
  rw [List.pairwise_flatMap]
  refine ⟨fun z _ => ?_, ?_⟩
  · rw [List.pairwise_flatMap]
    refine ⟨fun y _ => ?_, ?_⟩
    · rw [List.pairwise_map]
      refine (List.pairwise_lt_range NX).imp ?_
      intro a b hab
      exact Or.inr ⟨rfl, Or.inr ⟨rfl, hab⟩⟩
    · refine (List.pairwise_lt_range NY).imp ?_
      intro a b hab r hr s hs
      simp only [List.mem_map, List.mem_range] at hr hs
      obtain ⟨x, _, rfl⟩ := hr
      obtain ⟨x', _, rfl⟩ := hs
      exact Or.inr ⟨rfl, Or.inl hab⟩
  · refine (List.pairwise_lt_range NZ).imp ?_
    intro a b hab r hr s hs
    simp only [List.mem_flatMap, List.mem_map, List.mem_range] at hr hs
    obtain ⟨y, _, x, _, rfl⟩ := hr
    obtain ⟨y', _, x', _, rfl⟩ := hs
    exact Or.inl hab

/-- At a node of the grid the loop body appends the element to the list its rule selects. -/
theorem cylinderBody_eq {T : Type} (NX NY NZ radius : Nat) (position : Arr3) (walls : Bool)
    (RHO U V W : T) (b : Boundaries T) (r : Nat × Nat × Nat)
    (hNX : NX ≤ 2 ^ 32) (hNY : NY ≤ 2 ^ 32) (hNZ : NZ ≤ 2 ^ 32)
    (hr : r.1 < NX ∧ r.2.1 < NY ∧ r.2.2 < NZ) :
    cylinderBody NX NY NZ radius position walls RHO U V W b r.1 r.2.1 r.2.2
      = { wall := b.wall ++ (if wallRule NY NZ radius position walls r = true
            then [elementAt RHO U V W r] else []),
          inlet := b.inlet ++ (if inletRule NY NZ radius position r = true
            then [elementAt RHO U V W r] else []),
          outlet := b.outlet ++ (if outletRule NX NY NZ radius position r = true
            then [elementAt RHO U V W r] else []) } := by
  obtain ⟨x, y, z⟩ := r
  obtain ⟨hx, hy, hz⟩ := hr
  simp only at hx hy hz
  simp only [cylinderBody, wallRule, inletRule, outletRule, onFace, elementAt,
    usub_one (by omega : 1 ≤ NX) hNX, usub_one (by omega : 1 ≤ NY) hNY,
    usub_one (by omega : 1 ≤ NZ) hNZ]
  cases hd : discTest x y position radius
  · by_cases hf : y = 0 ∨ y = NY - 1 ∨ z = 0 ∨ z = NZ - 1
    · cases walls <;> simp [hf]
    · by_cases hx0 : x = 0
      · simp [hf, hx0]
      · by_cases hxl : x = NX - 1
        · subst hxl
          simp [hf, hx0]
        · simp [hf, hx0, hxl]
  · simp

/-- The loop over a list of grid nodes appends to each vector the elements of the nodes its
rule selects, in the order of the list. -/
theorem cylinderFold_eq {T : Type} (NX NY NZ radius : Nat) (position : Arr3) (walls : Bool)
    (RHO U V W : T) (hNX : NX ≤ 2 ^ 32) (hNY : NY ≤ 2 ^ 32) (hNZ : NZ ≤ 2 ^ 32)
    (L : List (Nat × Nat × Nat)) (hL : ∀ r ∈ L, r.1 < NX ∧ r.2.1 < NY ∧ r.2.2 < NZ)
    (b : Boundaries T) :
    L.foldl (fun b r => cylinderBody NX NY NZ radius position walls RHO U V W b r.1 r.2.1 r.2.2)
        b
      = { wall := b.wall ++ (L.filter (wallRule NY NZ radius position walls)).map
            (elementAt RHO U V W),
          inlet := b.inlet ++ (L.filter (inletRule NY NZ radius position)).map
            (elementAt RHO U V W),
          outlet := b.outlet ++ (L.filter (outletRule NX NY NZ radius position)).map
            (elementAt RHO U V W) } := by
  induction L generalizing b with
  | nil => simp
  | cons r L ih =>
    rw [List.foldl_cons, ih (fun s hs => hL s (List.mem_cons_of_mem _ hs)),
      cylinderBody_eq NX NY NZ radius position walls RHO U V W b r hNX hNY hNZ
        (hL r (List.mem_cons_self _ _))]
    congr 1
    · cases h : wallRule NY NZ radius position walls r <;> simp [List.filter_cons, h]
    · cases h : inletRule NY NZ radius position r <;> simp [List.filter_cons, h]
    · cases h : outletRule NX NY NZ radius position r <;> simp [List.filter_cons, h]

/-- The wrapped square of a difference of two values below `2^15` is the exact square. -/
theorem usub_sq {a b : Nat} (ha : a < 2 ^ 15) (hb : b < 2 ^ 15) :
    ((u32 (usub a b * usub a b) : Nat) : Int) = ((a : Int) - (b : Int)) ^ 2 ∧
    u32 (usub a b * usub a b) < 2 ^ 30 := by
  rcases Nat.lt_or_ge a b with h | h
  · have hc : b - a < 2 ^ 15 := by omega
    have hcc : (b - a) * (b - a) < 2 ^ 30 := by
      have := Nat.mul_lt_mul'' hc hc
      norm_num at this ⊢
      exact this
    have e1 : usub a b = 2 ^ 32 - (b - a) := by unfold usub; omega
    have e2 : (2 ^ 32 - (b - a)) * (2 ^ 32 - (b - a))
        = 2 ^ 32 * (2 ^ 32 - 2 * (b - a)) + (b - a) * (b - a) := by
      have h1 : b - a ≤ 2 ^ 32 := by omega
      have h2 : 2 * (b - a) ≤ 2 ^ 32 := by omega
      zify [h1, h2]
      ring
    have e3 : u32 (usub a b * usub a b) = (b - a) * (b - a) := by
      rw [e1, e2, u32, Nat.mul_add_mod]
      exact Nat.mod_eq_of_lt (by omega)
    rw [e3]
    refine ⟨?_, hcc⟩
    push_cast [Nat.cast_sub (Nat.le_of_lt h)]
    ring
  · have hc : a - b < 2 ^ 15 := by omega
    have hcc : (a - b) * (a - b) < 2 ^ 30 := by
      have := Nat.mul_lt_mul'' hc hc
      norm_num at this ⊢
      exact this
    have e1 : usub a b = a - b := by unfold usub; omega
    have e3 : u32 (usub a b * usub a b) = (a - b) * (a - b) := by
      rw [e1]
      exact u32_of_lt (by omega)
    rw [e3]
    refine ⟨?_, hcc⟩
    push_cast [Nat.cast_sub h]
    ring

/-- For values below `2^15` the disc test of the code is the disc over the integers. -/
theorem discTest_iff {x y radius : Nat} {position : Arr3} (hx : x < 2 ^ 15) (hy : y < 2 ^ 15)
    (hpx : position 0 < 2 ^ 15) (hpy : position 1 < 2 ^ 15) (hr : radius < 2 ^ 15) :
    discTest x y position radius = true ↔ inDisc x y position radius := by
  obtain ⟨eA, hA⟩ := usub_sq hx hpx
  obtain ⟨eB, hB⟩ := usub_sq hy hpy
  have hrr : radius * radius < 2 ^ 30 := by
    have := Nat.mul_lt_mul'' hr hr
    norm_num at this ⊢
    exact this
  unfold discTest inDisc
  rw [decide_eq_true_iff, u32_of_lt (by omega : u32 (usub x (position 0) * usub x (position 0))
    + u32 (usub y (position 1) * usub y (position 1)) < 2 ^ 32), u32_of_lt (by omega :
    radius * radius < 2 ^ 32), ← eA, ← eB]
  constructor
  · intro h
    have h' : ((u32 (usub x (position 0) * usub x (position 0))
        + u32 (usub y (position 1) * usub y (position 1)) : Nat) : Int)
        ≤ ((radius * radius : Nat) : Int) := Int.ofNat_le.2 h
    push_cast at h'
    rw [pow_two]
    exact h'
  · intro h
    rw [pow_two] at h
    exact_mod_cast h

/-! ## The claims -/

/-- C1 (amended): for the D3Q19 lattice and every domain `NX, NY, NZ, NPOP ≥ 1` whose buffer has
at most `2^32` entries (`NX*NY*NZ*NPOP*ND ≤ 2^32`), for every tuple with `x < NX`, `y < NY`,
`z < NZ`, `p < NPOP`, `n ∈ {0,1}` and `d < 10`, `LinearToSpatial` applied to
`SpatialToLinear(x, y, z, n, d, p)` returns exactly `(x, y, z, p, n, d)`.
(The extents are at least 1 as soon as they bound a coordinate.) -/
theorem C1_roundtrip_D3Q19 (NX NY NZ NPOP x y z n d p : Nat)
    (hsize : NX * NY * NZ * NPOP * 20 ≤ 2 ^ 32)
    (hx : x < NX) (hy : y < NY) (hz : z < NZ) (hp : p < NPOP) (hn : n < 2) (hd : d < 10) :
    (popD3Q19 NX NY NZ NPOP).LinearToSpatial
        ((popD3Q19 NX NY NZ NPOP).SpatialToLinear x y z n d p)
      = some (x, y, z, p, n, d) := by
  have hv := valid_D3Q19 hx hy hz hp hn hd
  have hb := bufferSize_D3Q19 NX NY NZ NPOP
  rw [SpatialToLinear_eq_linearize _ hv (by omega)]
  exact LinearToSpatial_linearize _ hv hd (by show d < 19; omega) (by omega)

/-- C1, witness: the tuple `(1, 2, 3, p = 0, n = 1, d = 4)` of a 4×4×4 domain. -/
theorem C1_roundtrip_D3Q19_witness :
    (popD3Q19 4 4 4 1).LinearToSpatial ((popD3Q19 4 4 4 1).SpatialToLinear 1 2 3 1 4 0)
      = some (1, 2, 3, 0, 1, 4) :=
  C1_roundtrip_D3Q19 4 4 4 1 1 2 3 1 4 0 (by decide) (by decide) (by decide) (by decide)
    (by decide) (by decide) (by decide)

/-- C1 as stated fails: on the domain 1024×1024×1024 with one population (`20·2^30` entries) the
offset of the valid tuple `(0, 0, 512, n = 0, d = 0, p = 0)` wraps around to `2^31`, and
`LinearToSpatial` returns `(614, 409, 102, 0, 0, 8)`. -/
theorem C1_counterexample :
    (popD3Q19 1024 1024 1024 1).SpatialToLinear 0 0 512 0 0 0 = 2147483648 ∧
    (popD3Q19 1024 1024 1024 1).LinearToSpatial
        ((popD3Q19 1024 1024 1024 1).SpatialToLinear 0 0 512 0 0 0)
      = some (614, 409, 102, 0, 0, 8) ∧
    (popD3Q19 1024 1024 1024 1).LinearToSpatial
        ((popD3Q19 1024 1024 1024 1).SpatialToLinear 0 0 512 0 0 0)
      ≠ some (0, 0, 512, 0, 0, 0) := by
  have h : (popD3Q19 1024 1024 1024 1).LinearToSpatial
      ((popD3Q19 1024 1024 1024 1).SpatialToLinear 0 0 512 0 0 0)
      = some (614, 409, 102, 0, 0, 8) := by decide
  refine ⟨by decide, h, ?_⟩
  rw [h]
  decide

/-- C2 as stated fails for the function of the code, whose offsets are `unsigned int`: on the
domain 1024×1024×1024 with one population (`20·2^30` entries) the two distinct valid tuples
`(0, 0, 0, n = 0, d = 0, p = 0)` and `(204, 819, 204, n = 1, d = 6, p = 0)` both get the offset
0 (the exact value `2^32` of the second wraps around), so the map is not injective; and the
offset `2^32`, which lies below the buffer size, is the image of no tuple. -/
theorem C2_counterexample :
    (popD3Q19 1024 1024 1024 1).SpatialToLinear 0 0 0 0 0 0 = 0 ∧
    (popD3Q19 1024 1024 1024 1).SpatialToLinear 204 819 204 1 6 0 = 0 ∧
    ((0, 0, 0, 0, 0, 0) : Nat × Nat × Nat × Nat × Nat × Nat) ≠ (204, 819, 204, 1, 6, 0) ∧
    linearize (popD3Q19 1024 1024 1024 1) 204 819 204 1 6 0 = 4294967296 ∧
    4294967296 < 1024 * 1024 * 1024 * 1 * 20 ∧
    (∀ x y z n d p, (popD3Q19 1024 1024 1024 1).SpatialToLinear x y z n d p ≠ 4294967296) := by
  refine ⟨by decide, by decide, by decide, by decide, by decide, ?_⟩
  intro x y z n d p h
  rw [SpatialToLinear_eq_mod] at h
  have := Nat.mod_lt (linearize (popD3Q19 1024 1024 1024 1) x y z n d p)
    (by norm_num : 0 < 2 ^ 32)
  omega

/-- C2 (amended): `SpatialToLinear` computes `(((z*NY + y)*NX + x)*NPOP + p)*ND + n*OFF + d`,
reduced modulo `2^32` by the `unsigned int` evaluation, and is a bijection when the buffer has
at most `2^32` entries: for the D3Q19 lattice and every `NX, NY, NZ, NPOP ≥ 1` with
`NX*NY*NZ*NPOP*ND ≤ 2^32`, on the tuples with `x < NX`, `y < NY`, `z < NZ`, `p < NPOP`,
`n ∈ {0,1}`, `d < 10` it returns the exact value of the formula, it is injective, and its image
is exactly the set of offsets `{0, ..., NX*NY*NZ*NPOP*ND - 1}`. -/
theorem C2_SpatialToLinear_bijection (NX NY NZ NPOP : Nat)
    (hsize : NX * NY * NZ * NPOP * 20 ≤ 2 ^ 32) :
    (∀ x y z n d p, (popD3Q19 NX NY NZ NPOP).SpatialToLinear x y z n d p
        = ((((z * NY + y) * NX + x) * NPOP + p) * 20 + n * 10 + d) % 2 ^ 32) ∧
    (∀ x y z n d p, x < NX → y < NY → z < NZ → p < NPOP → n < 2 → d < 10 →
        (popD3Q19 NX NY NZ NPOP).SpatialToLinear x y z n d p
          = (((z * NY + y) * NX + x) * NPOP + p) * 20 + n * 10 + d) ∧
    (∀ x y z n d p x' y' z' n' d' p',
        x < NX → y < NY → z < NZ → p < NPOP → n < 2 → d < 10 →
        x' < NX → y' < NY → z' < NZ → p' < NPOP → n' < 2 → d' < 10 →
        (popD3Q19 NX NY NZ NPOP).SpatialToLinear x y z n d p
          = (popD3Q19 NX NY NZ NPOP).SpatialToLinear x' y' z' n' d' p' →
        (x, y, z, n, d, p) = (x', y', z', n', d', p')) ∧
    (∀ i, (∃ x y z n d p, x < NX ∧ y < NY ∧ z < NZ ∧ p < NPOP ∧ n < 2 ∧ d < 10 ∧
        (popD3Q19 NX NY NZ NPOP).SpatialToLinear x y z n d p = i)
      ↔ i < NX * NY * NZ * NPOP * 20) := by
  have hb : bufferSize (popD3Q19 NX NY NZ NPOP) ≤ 2 ^ 32 := hsize
  refine ⟨fun x y z n d p => SpatialToLinear_eq_mod _ x y z n d p,
    fun x y z n d p hx hy hz hp hn hd =>
      SpatialToLinear_eq_linearize _ (valid_D3Q19 hx hy hz hp hn hd) hb, ?_, ?_⟩
  · intro x y z n d p x' y' z' n' d' p' hx hy hz hp hn hd hx' hy' hz' hp' hn' hd' h
    obtain ⟨h1, h2, h3, h4, h5, h6⟩ :=
      SpatialToLinear_inj NX NY NZ NPOP hsize hx hy hz hp hn hd hx' hy' hz' hp' hn' hd' h
    rw [h1, h2, h3, h4, h5, h6]
  · intro i
    constructor
    · rintro ⟨x, y, z, n, d, p, hx, hy, hz, hp, hn, hd, rfl⟩
      rw [SpatialToLinear_eq_linearize _ (valid_D3Q19 hx hy hz hp hn hd) hb]
      exact linearize_lt _ (valid_D3Q19 hx hy hz hp hn hd)
    · intro hi
      obtain ⟨x, y, z, n, d, p, hx, hy, hz, hp, hn, hd, h⟩ := linearize_surj NX NY NZ NPOP hi
      exact ⟨x, y, z, n, d, p, hx, hy, hz, hp, hn, hd,
        by rw [SpatialToLinear_eq_linearize _ (valid_D3Q19 hx hy hz hp hn hd) hb, h]⟩

/-- C2, witness: on the 4×4×4 domain with one population (1280 entries) the offset 1154 is in
the image of `SpatialToLinear`. -/
theorem C2_SpatialToLinear_bijection_witness :
    ∃ x y z n d p, x < 4 ∧ y < 4 ∧ z < 4 ∧ p < 1 ∧ n < 2 ∧ d < 10 ∧
      (popD3Q19 4 4 4 1).SpatialToLinear x y z n d p = 1154 :=
  ((C2_SpatialToLinear_bijection 4 4 4 1 (by decide)).2.2.2 1154).2 (by decide)

/-- C3 as stated fails: on the domain 1024×1024×1024 with one population (`20·2^30` entries)
the even-step write offsets of the two distinct valid tuples `(0, 0, 0, n = 0, d = 0)` and
`(204, 819, 204, n = 1, d = 6)` are both 0, because the offset `2^32` of the second wraps
around. -/
theorem C3_counterexample :
    (popD3Q19 1024 1024 1024 1).AA_IndexWrite false (periodic 1024 0) (periodic 1024 0)
        (periodic 1024 0) 0 0 0 = 0 ∧
    (popD3Q19 1024 1024 1024 1).AA_IndexWrite false (periodic 1024 204) (periodic 1024 819)
        (periodic 1024 204) 1 6 0 = 0 ∧
    ((0, 0, 0, 0, 0) : Nat × Nat × Nat × Nat × Nat) ≠ (204, 819, 204, 1, 6) := by
  decide

/-- C3 (amended): write bijection. For each parity, each fixed population index `p < NPOP` and
every domain `NX, NY, NZ ≥ 1` with the D3Q19 lattice whose buffer has at most `2^32` entries
(`NX*NY*NZ*NPOP*ND ≤ 2^32`), when every node `(x, y, z)` passes the periodic neighbour arrays,
the map `(x, y, z, n, d) ↦ AA_IndexWrite<parity>(x3, y3, z3, n, d, p)` over all `x < NX`,
`y < NY`, `z < NZ`, `n ∈ {0,1}`, `d < 10` has no duplicates and its image is exactly the set of
all offsets `SpatialToLinear(x', y', z', n', d', p)` of population `p`. -/
theorem C3_write_bijection (odd : Bool) (NX NY NZ NPOP p : Nat)
    (hsize : NX * NY * NZ * NPOP * 20 ≤ 2 ^ 32) (hp : p < NPOP) :
    (∀ x y z n d x' y' z' n' d', x < NX → y < NY → z < NZ → n < 2 → d < 10 →
        x' < NX → y' < NY → z' < NZ → n' < 2 → d' < 10 →
        (popD3Q19 NX NY NZ NPOP).AA_IndexWrite odd (periodic NX x) (periodic NY y)
            (periodic NZ z) n d p
          = (popD3Q19 NX NY NZ NPOP).AA_IndexWrite odd (periodic NX x') (periodic NY y')
            (periodic NZ z') n' d' p →
        (x, y, z, n, d) = (x', y', z', n', d')) ∧
    (∀ i, (∃ x y z n d, x < NX ∧ y < NY ∧ z < NZ ∧ n < 2 ∧ d < 10 ∧
          (popD3Q19 NX NY NZ NPOP).AA_IndexWrite odd (periodic NX x) (periodic NY y)
            (periodic NZ z) n d p = i) ↔
        (∃ x y z n d, x < NX ∧ y < NY ∧ z < NZ ∧ n < 2 ∧ d < 10 ∧
          (popD3Q19 NX NY NZ NPOP).SpatialToLinear x y z n d p = i)) := by
  refine ⟨?_, fun i => AA_IndexWrite_image odd NX NY NZ NPOP p i⟩
  intro x y z n d x' y' z' n' d' hx hy hz hn hd hx' hy' hz' hn' hd' h
  obtain ⟨h1, h2, h3, h4, h5⟩ :=
    AA_IndexWrite_inj odd NX NY NZ NPOP p hsize hp hx hy hz hn hd hx' hy' hz' hn' hd' h
  rw [h1, h2, h3, h4, h5]

/-- C3, witness: on a 4×4×4 domain the odd-step write offset 451 of node `(1, 1, 1)` and
`(n, d) = (0, 1)` is the offset of the slot `(1, 1)` of node `(2, 1, 1)`. -/
theorem C3_write_bijection_witness :
    ∃ x y z n d, x < 4 ∧ y < 4 ∧ z < 4 ∧ n < 2 ∧ d < 10 ∧
      (popD3Q19 4 4 4 1).SpatialToLinear x y z n d 0 = 451 :=
  ((C3_write_bijection true 4 4 4 1 0 (by decide) (by decide)).2 451).1
    ⟨1, 1, 1, 0, 1, by decide, by decide, by decide, by decide, by decide, by decide⟩

/-- C4: cycle consistency, even write then odd read. For every node `(x, y, z)` of a periodic
`NX × NY × NZ` domain, every `n ∈ {0,1}`, `d < 10` and `p`, the offset `AA_IndexWrite<false>`
returns at the node for `(n, d, p)` equals the offset `AA_IndexRead<true>` returns for the same
`(n, d, p)` at the neighbour node `(x, y, z) + (DX, DY, DZ)[n*OFF + d]` wrapped periodically,
both nodes passing their own periodic neighbour arrays. -/
theorem C4_even_write_odd_read (NX NY NZ NPOP x y z n d p : Nat)
    (hx : x < NX) (hy : y < NY) (hz : z < NZ) (hn : n < 2) (hd : d < 10) :
    (popD3Q19 NX NY NZ NPOP).AA_IndexWrite false
        (periodic NX x) (periodic NY y) (periodic NZ z) n d p
      = (popD3Q19 NX NY NZ NPOP).AA_IndexRead true
          (periodic NX (wrapAdd NX x (tab D3Q19.DX (n * D3Q19.OFF + d))))
          (periodic NY (wrapAdd NY y (tab D3Q19.DY (n * D3Q19.OFF + d))))
          (periodic NZ (wrapAdd NZ z (tab D3Q19.DZ (n * D3Q19.OFF + d)))) n d p := by
  have hNX : 0 < NX := by omega
  have hNY : 0 < NY := by omega
  have hNZ : 0 < NZ := by omega
  show _ = (popD3Q19 NX NY NZ NPOP).AA_IndexRead true (periodic NX (wrapAdd NX x (cx n d)))
    (periodic NY (wrapAdd NY y (cy n d))) (periodic NZ (wrapAdd NZ z (cz n d))) n d p
  rw [AA_IndexWrite_even, AA_IndexRead_odd_periodic NX NY NZ NPOP p (wrapAdd_lt hNX _ _)
    (wrapAdd_lt hNY _ _) (wrapAdd_lt hNZ _ _) hn hd]
  simp only [wrapAdd_wrapAdd hNX, wrapAdd_wrapAdd hNY, wrapAdd_wrapAdd hNZ, Int.add_right_neg,
    wrapAdd_zero hx, wrapAdd_zero hy, wrapAdd_zero hz, periodic_one]

/-- C4, witness: node `(3, 0, 2)` of a 4×4×4 domain and the direction `(n, d) = (0, 4)` with
velocity `(1, 1, 0)`. -/
theorem C4_even_write_odd_read_witness :
    (popD3Q19 4 4 4 1).AA_IndexWrite false (periodic 4 3) (periodic 4 0) (periodic 4 2) 0 4 0
      = (popD3Q19 4 4 4 1).AA_IndexRead true
          (periodic 4 (wrapAdd 4 3 (tab D3Q19.DX (0 * D3Q19.OFF + 4))))
          (periodic 4 (wrapAdd 4 0 (tab D3Q19.DY (0 * D3Q19.OFF + 4))))
          (periodic 4 (wrapAdd 4 2 (tab D3Q19.DZ (0 * D3Q19.OFF + 4)))) 0 4 0 :=
  C4_even_write_odd_read 4 4 4 1 3 0 2 0 4 0 (by decide) (by decide) (by decide) (by decide)
    (by decide)

/-- C5: cycle consistency, odd write then even read. For every node `(x, y, z)` of a periodic
`NX × NY × NZ` domain, every `n ∈ {0,1}`, `d < 10` and `p`, the offset `AA_IndexWrite<true>`
returns at the node for `(n, d, p)` equals the offset `AA_IndexRead<false>` returns for the same
`(n, d, p)` at the neighbour node `(x, y, z) + (DX, DY, DZ)[n*OFF + d]` wrapped periodically. -/
theorem C5_odd_write_even_read (NX NY NZ NPOP x y z n d p : Nat)
    (hx : x < NX) (hy : y < NY) (hz : z < NZ) (hn : n < 2) (hd : d < 10) :
    (popD3Q19 NX NY NZ NPOP).AA_IndexWrite true
        (periodic NX x) (periodic NY y) (periodic NZ z) n d p
      = (popD3Q19 NX NY NZ NPOP).AA_IndexRead false
          (periodic NX (wrapAdd NX x (tab D3Q19.DX (n * D3Q19.OFF + d))))
          (periodic NY (wrapAdd NY y (tab D3Q19.DY (n * D3Q19.OFF + d))))
          (periodic NZ (wrapAdd NZ z (tab D3Q19.DZ (n * D3Q19.OFF + d)))) n d p := by
  show _ = (popD3Q19 NX NY NZ NPOP).AA_IndexRead false (periodic NX (wrapAdd NX x (cx n d)))
    (periodic NY (wrapAdd NY y (cy n d))) (periodic NZ (wrapAdd NZ z (cz n d))) n d p
  rw [AA_IndexWrite_odd_periodic NX NY NZ NPOP p hx hy hz hn hd, AA_IndexRead_even,
    lnot_of_lt_two hn]
  simp only [periodic_one]

/-- C5, witness: node `(3, 0, 2)` of a 4×4×4 domain and the direction `(n, d) = (1, 7)` with
velocity `(-1, 0, 1)`. -/
theorem C5_odd_write_even_read_witness :
    (popD3Q19 4 4 4 1).AA_IndexWrite true (periodic 4 3) (periodic 4 0) (periodic 4 2) 1 7 0
      = (popD3Q19 4 4 4 1).AA_IndexRead false
          (periodic 4 (wrapAdd 4 3 (tab D3Q19.DX (1 * D3Q19.OFF + 7))))
          (periodic 4 (wrapAdd 4 0 (tab D3Q19.DY (1 * D3Q19.OFF + 7))))
          (periodic 4 (wrapAdd 4 2 (tab D3Q19.DZ (1 * D3Q19.OFF + 7)))) 1 7 0 :=
  C5_odd_write_even_read 4 4 4 1 3 0 2 1 7 0 (by decide) (by decide) (by decide) (by decide)
    (by decide)

/-- C6 as stated fails: on the domain 214748365×1×1 (`2^32 + 4` entries) the slot `(0, 0)` of
node 0 and the slot `(1, 6)` of node 214748364 have the same offset 0, because the offset `2^32`
of the latter wraps around; the claim asks the one buffer entry to hold both the initial value
at offset 0 and the initial value at offset 4294967256. No buffer with different values there
can satisfy it. -/
theorem C6_counterexample :
    ¬ ∀ (F : Nat → Nat) (x y z m d : Nat), x < 214748365 → y < 1 → z < 1 → m < 2 → d < 10 →
      sweep (popD3Q19 214748365 1 1 1) true (sweep (popD3Q19 214748365 1 1 1) false F)
          ((popD3Q19 214748365 1 1 1).SpatialToLinear x y z m d 0)
        = F ((popD3Q19 214748365 1 1 1).SpatialToLinear
            (wrapAdd 214748365 x (2 * tab D3Q19.DX (m * D3Q19.OFF + d)))
            (wrapAdd 1 y (2 * tab D3Q19.DY (m * D3Q19.OFF + d)))
            (wrapAdd 1 z (2 * tab D3Q19.DZ (m * D3Q19.OFF + d))) m d 0) := by
  intro h
  have h1 := h (fun i => i) 0 0 0 0 0 (by decide) (by decide) (by decide) (by decide)
    (by decide)
  have h2 := h (fun i => i) 214748364 0 0 1 6 (by decide) (by decide) (by decide) (by decide)
    (by decide)
  have e1 : (popD3Q19 214748365 1 1 1).SpatialToLinear 0 0 0 0 0 0 = 0 := by decide
  have e2 : (popD3Q19 214748365 1 1 1).SpatialToLinear 214748364 0 0 1 6 0 = 0 := by decide
  have e3 : (popD3Q19 214748365 1 1 1).SpatialToLinear
      (wrapAdd 214748365 0 (2 * tab D3Q19.DX (0 * D3Q19.OFF + 0)))
      (wrapAdd 1 0 (2 * tab D3Q19.DY (0 * D3Q19.OFF + 0)))
      (wrapAdd 1 0 (2 * tab D3Q19.DZ (0 * D3Q19.OFF + 0))) 0 0 0 = 0 := by decide
  have e4 : (popD3Q19 214748365 1 1 1).SpatialToLinear
      (wrapAdd 214748365 214748364 (2 * tab D3Q19.DX (1 * D3Q19.OFF + 6)))
      (wrapAdd 1 0 (2 * tab D3Q19.DY (1 * D3Q19.OFF + 6)))
      (wrapAdd 1 0 (2 * tab D3Q19.DZ (1 * D3Q19.OFF + 6))) 1 6 0 = 4294967256 := by decide
  rw [e1, e3] at h1
  rw [e2, e4] at h2
  have h3 : (0 : Nat) = 4294967256 := h1.symm.trans h2
  exact absurd h3 (by decide)

/-- C6 (amended): full AA cycle with identity collision. Model the buffer as a map from offsets
to values and a phase sweep as, for every node of a periodic `NX × NY × NZ` domain
(`NPOP = 1`, D3Q19), first reading the 20 values at `AA_IndexRead<parity>(x3,y3,z3,n,d,0)` and
then storing value `(n,d)` unchanged at `AA_IndexWrite<parity>(x3,y3,z3,n,d,0)`. If the buffer
has at most `2^32` entries (`NX*NY*NZ*ND ≤ 2^32`), then for every initial buffer `F`, after one
even sweep followed by one odd sweep, the slot `SpatialToLinear(s, m, d)` holds the value that
was initially in the slot `SpatialToLinear(s + 2*c(m,d) wrapped periodically, m, d)`, where
`c(m,d) = (DX,DY,DZ)[m*OFF+d]`; in particular on a 4×4×4 domain a uniform field has every slot
equal to its pre-cycle value. -/
theorem C6_full_cycle {α : Type} (NX NY NZ : Nat) (hsize : NX * NY * NZ * 20 ≤ 2 ^ 32)
    (F : Nat → α) (x y z m d : Nat)
    (hx : x < NX) (hy : y < NY) (hz : z < NZ) (hm : m < 2) (hd : d < 10) :
    sweep (popD3Q19 NX NY NZ 1) true (sweep (popD3Q19 NX NY NZ 1) false F)
        ((popD3Q19 NX NY NZ 1).SpatialToLinear x y z m d 0)
      = F ((popD3Q19 NX NY NZ 1).SpatialToLinear
          (wrapAdd NX x (2 * tab D3Q19.DX (m * D3Q19.OFF + d)))
          (wrapAdd NY y (2 * tab D3Q19.DY (m * D3Q19.OFF + d)))
          (wrapAdd NZ z (2 * tab D3Q19.DZ (m * D3Q19.OFF + d))) m d 0) ∧
    ∀ (v : α) (i : Nat),
      sweep (popD3Q19 4 4 4 1) true (sweep (popD3Q19 4 4 4 1) false (fun _ => v)) i = v := by
  refine ⟨cycle_value NX NY NZ hsize F hx hy hz hm hd, fun v i => ?_⟩
  rw [sweep_const, sweep_const]

/-- C6, witness: on a 4×4×4 domain whose buffer initially holds its own offsets, after the
cycle the slot `(0, 4)` (velocity `(1, 1, 0)`) of node `(3, 0, 2)` holds the offset of the same
slot of node `(1, 2, 2)`. -/
theorem C6_full_cycle_witness :
    sweep (popD3Q19 4 4 4 1) true (sweep (popD3Q19 4 4 4 1) false (fun i => i))
        ((popD3Q19 4 4 4 1).SpatialToLinear 3 0 2 0 4 0)
      = (popD3Q19 4 4 4 1).SpatialToLinear 1 2 2 0 4 0 :=
  (C6_full_cycle 4 4 4 (by decide) (fun i => i) 3 0 2 0 4 (by decide) (by decide) (by decide)
    (by decide) (by decide)).1

/-- C7: even-step read. For parity false, all neighbour arrays `x3, y3, z3`, every `n ∈ {0,1}`,
`d` and `p`, `AA_IndexRead<false>(x3, y3, z3, n, d, p)
= SpatialToLinear(x3[1], y3[1], z3[1], 1-n, d, p)`: the value is read reversed from the current
node, and the result does not depend on the entries 0 and 2 of the neighbour arrays. This holds
for every lattice model and every domain. -/
theorem C7_even_read (P : Population) (x3 y3 z3 : Arr3) (n d p : Nat) (hn : n < 2) :
    P.AA_IndexRead false x3 y3 z3 n d p
        = P.SpatialToLinear (x3 1) (y3 1) (z3 1) (1 - n) d p ∧
    ∀ x3' y3' z3' : Arr3, x3' 1 = x3 1 → y3' 1 = y3 1 → z3' 1 = z3 1 →
      P.AA_IndexRead false x3' y3' z3' n d p = P.AA_IndexRead false x3 y3 z3 n d p := by
  refine ⟨by rw [AA_IndexRead_even, lnot_of_lt_two hn], ?_⟩
  intro x3' y3' z3' h1 h2 h3
  rw [AA_IndexRead_even, AA_IndexRead_even, h1, h2, h3]

/-- C7, witness: the D3Q19 population on a 4×4×4 domain, `n = 0`, `d = 1`, `p = 0`. -/
theorem C7_even_read_witness :
    (popD3Q19 4 4 4 1).AA_IndexRead false ![0, 1, 2] ![1, 2, 3] ![3, 0, 1] 0 1 0
      = (popD3Q19 4 4 4 1).SpatialToLinear 1 2 0 1 1 0 :=
  (C7_even_read (popD3Q19 4 4 4 1) ![0, 1, 2] ![1, 2, 3] ![3, 0, 1] 0 1 0 (by decide)).1

/-- C8 as stated fails: on a 4×4×4 domain with `n = 0`, `d = 1` the even-step write returns the
offset 421 of the unreversed slot `(n, d) = (0, 1)` of the current node, not the offset 431 of
the reversed slot `(1, 1)`. -/
theorem C8_counterexample :
    (popD3Q19 4 4 4 1).AA_IndexWrite false ![0, 1, 2] ![0, 1, 2] ![0, 1, 2] 0 1 0 = 421 ∧
    (popD3Q19 4 4 4 1).SpatialToLinear 1 1 1 (1 - 0) 1 0 = 431 ∧
    (popD3Q19 4 4 4 1).AA_IndexWrite false ![0, 1, 2] ![0, 1, 2] ![0, 1, 2] 0 1 0
      ≠ (popD3Q19 4 4 4 1).SpatialToLinear ((![0, 1, 2] : Arr3) 1) ((![0, 1, 2] : Arr3) 1)
          ((![0, 1, 2] : Arr3) 1) (1 - 0) 1 0 := by
  decide

/-- C8 (amended): even-step write. For parity false, all neighbour arrays `x3, y3, z3`, every
`n`, `d` and `p`, the write stores unreversed (a regular write) back to the current node:
`AA_IndexWrite<false>(x3, y3, z3, n, d, p) = SpatialToLinear(x3[1], y3[1], z3[1], n, d, p)`. -/
theorem C8_even_write (P : Population) (x3 y3 z3 : Arr3) (n d p : Nat) :
    P.AA_IndexWrite false x3 y3 z3 n d p = P.SpatialToLinear (x3 1) (y3 1) (z3 1) n d p :=
  AA_IndexWrite_even P x3 y3 z3 n d p

/-- C9 as stated fails: on a 4×4×4 domain with `n = 0`, `d = 1` the odd-step read takes the
x-coordinate from entry 0 of `x3` (`DX[11] = -1`) and returns the offset 401, not the offset 421
of the current node. -/
theorem C9_counterexample :
    (popD3Q19 4 4 4 1).AA_IndexRead true ![0, 1, 2] ![0, 1, 2] ![0, 1, 2] 0 1 0 = 401 ∧
    (popD3Q19 4 4 4 1).SpatialToLinear 1 1 1 0 1 0 = 421 ∧
    (popD3Q19 4 4 4 1).AA_IndexRead true ![0, 1, 2] ![0, 1, 2] ![0, 1, 2] 0 1 0
      ≠ (popD3Q19 4 4 4 1).SpatialToLinear ((![0, 1, 2] : Arr3) 1) ((![0, 1, 2] : Arr3) 1)
          ((![0, 1, 2] : Arr3) 1) 0 1 0 := by
  decide

/-- C9 (amended): odd-step read. For parity true and the D3Q19 lattice, all neighbour arrays
`x3, y3, z3`, every `n ∈ {0,1}`, `d < 10` and `p`, the read is unreversed and comes from the
neighbour entry selected by the velocity of the complemented half:
`AA_IndexRead<true>(x3, y3, z3, n, d, p) = SpatialToLinear(x3[1 + DX[(1-n)*OFF+d]],
y3[1 + DY[(1-n)*OFF+d]], z3[1 + DZ[(1-n)*OFF+d]], n, d, p)`. -/
theorem C9_odd_read (NX NY NZ NPOP : Nat) (x3 y3 z3 : Arr3) (n d p : Nat)
    (hn : n < 2) (hd : d < 10) :
    (popD3Q19 NX NY NZ NPOP).AA_IndexRead true x3 y3 z3 n d p
      = (popD3Q19 NX NY NZ NPOP).SpatialToLinear
          (x3.get (1 + tab D3Q19.DX ((1 - n) * D3Q19.OFF + d)))
          (y3.get (1 + tab D3Q19.DY ((1 - n) * D3Q19.OFF + d)))
          (z3.get (1 + tab D3Q19.DZ ((1 - n) * D3Q19.OFF + d))) n d p :=
  AA_IndexRead_odd NX NY NZ NPOP x3 y3 z3 p hn hd

/-- C9, witness: on a 4×4×4 domain, `n = 0`, `d = 1`: the read comes from entry 0 of `x3`. -/
theorem C9_odd_read_witness :
    (popD3Q19 4 4 4 1).AA_IndexRead true ![0, 1, 2] ![1, 2, 3] ![3, 0, 1] 0 1 0
      = (popD3Q19 4 4 4 1).SpatialToLinear 0 2 0 0 1 0 :=
  C9_odd_read 4 4 4 1 ![0, 1, 2] ![1, 2, 3] ![3, 0, 1] 0 1 0 (by decide) (by decide)

/-- C10 as stated fails: on a 4×4×4 domain with `n = 0`, `d = 1` the odd-step write goes to the
neighbour entry 2 of `x3` (`DX[1] = 1`) but at the reversed slot `(1, 1)`, offset 451, not at
the unreversed slot `(0, 1)`, offset 441. -/
theorem C10_counterexample :
    (popD3Q19 4 4 4 1).AA_IndexWrite true ![0, 1, 2] ![0, 1, 2] ![0, 1, 2] 0 1 0 = 451 ∧
    (popD3Q19 4 4 4 1).SpatialToLinear 2 1 1 0 1 0 = 441 ∧
    (popD3Q19 4 4 4 1).AA_IndexWrite true ![0, 1, 2] ![0, 1, 2] ![0, 1, 2] 0 1 0
      ≠ (popD3Q19 4 4 4 1).SpatialToLinear
          (Arr3.get ![0, 1, 2] (1 + tab D3Q19.DX (0 * D3Q19.OFF + 1)))
          (Arr3.get ![0, 1, 2] (1 + tab D3Q19.DY (0 * D3Q19.OFF + 1)))
          (Arr3.get ![0, 1, 2] (1 + tab D3Q19.DZ (0 * D3Q19.OFF + 1))) 0 1 0 := by
  decide

/-- C10 (amended): odd-step write. For parity true and the D3Q19 lattice, all neighbour arrays
`x3, y3, z3`, every `n ∈ {0,1}`, `d < 10` and `p`, the write goes to the neighbour node selected
by the direction vector of `(n, d)`, at the reversed direction slot:
`AA_IndexWrite<true>(x3, y3, z3, n, d, p) = SpatialToLinear(x3[1 + DX[n*OFF+d]],
y3[1 + DY[n*OFF+d]], z3[1 + DZ[n*OFF+d]], 1-n, d, p)`. -/
theorem C10_odd_write (NX NY NZ NPOP : Nat) (x3 y3 z3 : Arr3) (n d p : Nat)
    (hn : n < 2) (hd : d < 10) :
    (popD3Q19 NX NY NZ NPOP).AA_IndexWrite true x3 y3 z3 n d p
      = (popD3Q19 NX NY NZ NPOP).SpatialToLinear
          (x3.get (1 + tab D3Q19.DX (n * D3Q19.OFF + d)))
          (y3.get (1 + tab D3Q19.DY (n * D3Q19.OFF + d)))
          (z3.get (1 + tab D3Q19.DZ (n * D3Q19.OFF + d))) (1 - n) d p :=
  AA_IndexWrite_odd NX NY NZ NPOP x3 y3 z3 p hn hd

/-- C10, witness: on a 4×4×4 domain, `n = 0`, `d = 1`: the write goes to entry 2 of `x3`, at
the slot `(1, 1)`. -/
theorem C10_odd_write_witness :
    (popD3Q19 4 4 4 1).AA_IndexWrite true ![0, 1, 2] ![1, 2, 3] ![3, 0, 1] 0 1 0
      = (popD3Q19 4 4 4 1).SpatialToLinear 2 2 0 1 1 0 :=
  C10_odd_write 4 4 4 1 ![0, 1, 2] ![1, 2, 3] ![3, 0, 1] 0 1 0 (by decide) (by decide)

/-- C11: half-selector as the header documents it (even: reverse read and regular write; odd:
regular read and reverse write). For every `n ∈ {0,1}`, the half index that `AA_IndexRead`
passes to `SpatialToLinear` is `1-n` for parity false and `n` for parity true, and the half
index that `AA_IndexWrite` passes is `n` for parity false and `1-n` for parity true; the
direction `d` and the population `p` are passed through unchanged in all four cases. This holds
for every lattice model, every domain and all neighbour arrays. -/
theorem C11_half_selector (P : Population) (x3 y3 z3 : Arr3) (n d p : Nat) (hn : n < 2) :
    (halfRead false n = 1 - n ∧ halfRead true n = n ∧
      halfWrite false n = n ∧ halfWrite true n = 1 - n) ∧
    (∀ odd, P.AA_IndexRead odd x3 y3 z3 n d p
      = P.SpatialToLinear (x3.get (nbIndexRead P odd P.LT.DX n d))
          (y3.get (nbIndexRead P odd P.LT.DY n d)) (z3.get (nbIndexRead P odd P.LT.DZ n d))
          (halfRead odd n) d p) ∧
    (∀ odd, P.AA_IndexWrite odd x3 y3 z3 n d p
      = P.SpatialToLinear (x3.get (nbIndexWrite P odd P.LT.DX n d))
          (y3.get (nbIndexWrite P odd P.LT.DY n d)) (z3.get (nbIndexWrite P odd P.LT.DZ n d))
          (halfWrite odd n) d p) :=
  ⟨⟨halfRead_false hn, halfRead_true n, halfWrite_false n, halfWrite_true hn⟩,
    fun odd => AA_IndexRead_parts P odd x3 y3 z3 n d p,
    fun odd => AA_IndexWrite_parts P odd x3 y3 z3 n d p⟩

/-- C11, witness: for `n = 0` the four half indices are 1, 0, 0 and 1. -/
theorem C11_half_selector_witness :
    halfRead false 0 = 1 - 0 ∧ halfRead true 0 = 0 ∧
      halfWrite false 0 = 0 ∧ halfWrite true 0 = 1 - 0 :=
  (C11_half_selector (popD3Q19 4 4 4 1) ![0, 1, 2] ![0, 1, 2] ![0, 1, 2] 0 1 0 (by decide)).1

/-- C12: read/write asymmetry of the neighbour selection. For parity true and every
`n ∈ {0,1}`, `d < 10`, `AA_IndexRead` picks on each axis the neighbour-array entry
`1 + D[(1-n)*OFF + d]` (the velocity of the complemented half) while `AA_IndexWrite` picks the
entry `1 + D[n*OFF + d]` (the velocity of the same half), for `D` in `{DX, DY, DZ}`; with the
D3Q19 tables the two array indices always sum to 2, i.e. the read comes from the node at minus
the direction vector and the write goes to the node at plus the direction vector. For parity
false both pick entry 1 on every axis. -/
theorem C12_read_write_asymmetry (NX NY NZ NPOP n d : Nat) (hn : n < 2) (hd : d < 10) :
    (∀ D ∈ [D3Q19.DX, D3Q19.DY, D3Q19.DZ],
      nbIndexRead (popD3Q19 NX NY NZ NPOP) true D n d = 1 + tab D ((1 - n) * D3Q19.OFF + d) ∧
      nbIndexWrite (popD3Q19 NX NY NZ NPOP) true D n d = 1 + tab D (n * D3Q19.OFF + d) ∧
      nbIndexRead (popD3Q19 NX NY NZ NPOP) true D n d
        + nbIndexWrite (popD3Q19 NX NY NZ NPOP) true D n d = 2 ∧
      nbIndexRead (popD3Q19 NX NY NZ NPOP) true D n d = 1 - tab D (n * D3Q19.OFF + d) ∧
      nbIndexRead (popD3Q19 NX NY NZ NPOP) false D n d = 1 ∧
      nbIndexWrite (popD3Q19 NX NY NZ NPOP) false D n d = 1) ∧
    (∀ odd x3 y3 z3 p, (popD3Q19 NX NY NZ NPOP).AA_IndexRead odd x3 y3 z3 n d p
      = (popD3Q19 NX NY NZ NPOP).SpatialToLinear
          (x3.get (nbIndexRead (popD3Q19 NX NY NZ NPOP) odd D3Q19.DX n d))
          (y3.get (nbIndexRead (popD3Q19 NX NY NZ NPOP) odd D3Q19.DY n d))
          (z3.get (nbIndexRead (popD3Q19 NX NY NZ NPOP) odd D3Q19.DZ n d))
          (halfRead odd n) d p) ∧
    (∀ odd x3 y3 z3 p, (popD3Q19 NX NY NZ NPOP).AA_IndexWrite odd x3 y3 z3 n d p
      = (popD3Q19 NX NY NZ NPOP).SpatialToLinear
          (x3.get (nbIndexWrite (popD3Q19 NX NY NZ NPOP) odd D3Q19.DX n d))
          (y3.get (nbIndexWrite (popD3Q19 NX NY NZ NPOP) odd D3Q19.DY n d))
          (z3.get (nbIndexWrite (popD3Q19 NX NY NZ NPOP) odd D3Q19.DZ n d))
          (halfWrite odd n) d p) := by
  refine ⟨fun D hD => ?_, fun odd x3 y3 z3 p => AA_IndexRead_parts _ odd x3 y3 z3 n d p,
    fun odd x3 y3 z3 p => AA_IndexWrite_parts _ odd x3 y3 z3 n d p⟩
  obtain ⟨hm, _⟩ := tables_D3Q19 hD hn hd
  rw [nbIndexRead_odd NX NY NZ NPOP D hn hd, nbIndexWrite_odd NX NY NZ NPOP D hn hd, hm]
  refine ⟨rfl, rfl, by ring, by ring, nbIndexRead_even _ D n d, nbIndexWrite_even _ D n d⟩

/-- C12, witness: for `(n, d) = (0, 1)` with velocity `(1, 0, 0)` the odd-step read picks entry
0 of `x3` and the odd-step write picks entry 2. -/
theorem C12_read_write_asymmetry_witness :
    nbIndexRead (popD3Q19 4 4 4 1) true D3Q19.DX 0 1 = 1 + tab D3Q19.DX ((1 - 0) * D3Q19.OFF + 1) ∧
    nbIndexWrite (popD3Q19 4 4 4 1) true D3Q19.DX 0 1 = 1 + tab D3Q19.DX (0 * D3Q19.OFF + 1) ∧
    nbIndexRead (popD3Q19 4 4 4 1) true D3Q19.DX 0 1
      + nbIndexWrite (popD3Q19 4 4 4 1) true D3Q19.DX 0 1 = 2 ∧
    nbIndexRead (popD3Q19 4 4 4 1) true D3Q19.DX 0 1 = 1 - tab D3Q19.DX (0 * D3Q19.OFF + 1) ∧
    nbIndexRead (popD3Q19 4 4 4 1) false D3Q19.DX 0 1 = 1 ∧
    nbIndexWrite (popD3Q19 4 4 4 1) false D3Q19.DX 0 1 = 1 :=
  (C12_read_write_asymmetry 4 4 4 1 0 1 (by decide) (by decide)).1 D3Q19.DX (by decide)

/-- C13, the code at the claim: taken as exact rationals, the twenty entries of `W` in
`D3Q19.hpp` sum to `7/4`, and the sum minus the duplicated rest weight `W[0] = 1/3` is `17/12`,
not 1 as the assertion of `lattice::UnitTest::testClass` requires (the three axis weights are
`1/8` where the D3Q19 lattice has `1/18`). -/
theorem C13_weight_sum :
    D3Q19.W.length = D3Q19.ND ∧ D3Q19.W.sum = 7 / 4 ∧ D3Q19.W.getD 0 0 = 1 / 3 ∧
    D3Q19.W.sum - D3Q19.W.getD 0 0 = 17 / 12 ∧ D3Q19.W.sum - D3Q19.W.getD 0 0 ≠ 1 := by
  have h1 : D3Q19.W.sum = 7 / 4 := by norm_num [D3Q19.W]
  have h2 : D3Q19.W.getD 0 0 = 1 / 3 := rfl
  refine ⟨rfl, h1, h2, ?_, ?_⟩ <;> rw [h1, h2] <;> norm_num

/-- C14: zero-momentum symmetry of D3Q19. The sum over all entries of `DX` is 0, the sum over
all entries of `DY` is 0 and the sum over all entries of `DZ` is 0. -/
theorem C14_zero_momentum :
    D3Q19.DX.sum = 0 ∧ D3Q19.DY.sum = 0 ∧ D3Q19.DZ.sum = 0 := by
  decide

/-- C15: mirror layout of D3Q19. `HSPEED = OFF = 10` and `ND = SPEEDS + PAD = 2*OFF = 20` (the
length of the four tables); entry 0 is the zero velocity; and for every `d < 10` the entry
`OFF + d` is the exact negation of entry `d` on all three axes and carries the same
non-negative weight. -/
theorem C15_mirror_layout :
    (D3Q19.HSPEED = 10 ∧ D3Q19.OFF = 10 ∧ D3Q19.ND = D3Q19.SPEEDS + D3Q19.PAD ∧
      D3Q19.ND = 2 * D3Q19.OFF ∧ D3Q19.ND = 20) ∧
    (D3Q19.DX.length = D3Q19.ND ∧ D3Q19.DY.length = D3Q19.ND ∧ D3Q19.DZ.length = D3Q19.ND ∧
      D3Q19.W.length = D3Q19.ND) ∧
    (tab D3Q19.DX 0 = 0 ∧ tab D3Q19.DY 0 = 0 ∧ tab D3Q19.DZ 0 = 0) ∧
    (∀ d, d < 10 →
      tab D3Q19.DX (D3Q19.OFF + d) = - tab D3Q19.DX d ∧
      tab D3Q19.DY (D3Q19.OFF + d) = - tab D3Q19.DY d ∧
      tab D3Q19.DZ (D3Q19.OFF + d) = - tab D3Q19.DZ d ∧
      D3Q19.W.getD (D3Q19.OFF + d) 0 = D3Q19.W.getD d 0 ∧ 0 ≤ D3Q19.W.getD d 0) := by
  refine ⟨by decide, by decide, by decide, ?_⟩
  intro d hd
  interval_cases d <;> refine ⟨rfl, rfl, rfl, rfl, ?_⟩ <;> norm_num [D3Q19.W]

/-- C15, witness: the direction `d = 7` with velocity `(1, 0, -1)` and weight `1/36`. -/
theorem C15_mirror_layout_witness :
    tab D3Q19.DX (D3Q19.OFF + 7) = - tab D3Q19.DX 7 ∧
    tab D3Q19.DY (D3Q19.OFF + 7) = - tab D3Q19.DY 7 ∧
    tab D3Q19.DZ (D3Q19.OFF + 7) = - tab D3Q19.DZ 7 ∧
    D3Q19.W.getD (D3Q19.OFF + 7) 0 = D3Q19.W.getD 7 0 ∧ 0 ≤ D3Q19.W.getD 7 0 :=
  C15_mirror_layout.2.2.2 7 (by decide)

/-- C16 as stated fails: with the snapshot file `out/field_5.bin` of 2 bytes and
`MEM_SIZE_ = 4`, `Import("field", 5)` returns normally; the buffer `[1, 2, 3, 4]` becomes
`[7, 8, 3, 4]`. -/
theorem C16_counterexample :
    oneFile (fileName "out" "field" 5) = some [7, 8] ∧
    Import "out" 4 oneFile [1, 2, 3, 4] "field" 5 = (Outcome.returned, [7, 8, 3, 4]) ∧
    (Import "out" 4 oneFile [1, 2, 3, 4] "field" 5).1 ≠ Outcome.exited EXIT_FAILURE := by
  have h : Import "out" 4 oneFile [1, 2, 3, 4] "field" 5
      = (Outcome.returned, [7, 8, 3, 4]) := rfl
  refine ⟨by decide, h, ?_⟩
  rw [h]
  exact fun e => Outcome.noConfusion e

/-- C16 (amended): short-read import. Modelling the file system as a map from path to an
optional byte sequence, for every existing snapshot file whose length is smaller than
`MEM_SIZE_`, `Continuum::Import` returns normally: the bytes of the file replace the first
bytes of `M_` and the remaining bytes of `M_` are unchanged. Import does not compare byte
counts. -/
theorem C16_short_read (OUTPUT_BIN_PATH : String) (MEM_SIZE_ : Nat) (fs : FileSystem)
    (M_ : List Nat) (name : String) (step : Nat) (file : List Nat)
    (hfile : fs (fileName OUTPUT_BIN_PATH name step) = some file)
    (hshort : file.length < MEM_SIZE_) :
    Import OUTPUT_BIN_PATH MEM_SIZE_ fs M_ name step
      = (Outcome.returned, file ++ M_.drop file.length) := by
  rw [Import_of_some OUTPUT_BIN_PATH MEM_SIZE_ fs M_ name step hfile, fread_short M_ hshort]

/-- C16, witness: the file `out/field_5.bin` of 2 bytes read into a buffer of 4 bytes. -/
theorem C16_short_read_witness :
    Import "out" 4 oneFile [1, 2, 3, 4] "field" 5
      = (Outcome.returned, [7, 8] ++ [1, 2, 3, 4].drop [7, 8].length) :=
  C16_short_read "out" 4 oneFile [1, 2, 3, 4] "field" 5 [7, 8] (by decide) (by decide)

/-- C17: missing-file import. For every name and step whose path
`OUTPUT_BIN_PATH + "/" + name + "_" + decimal(step) + ".bin"` does not exist, `Continuum::Import`
ends in the fatal-error outcome (exit with `EXIT_FAILURE`) and the in-memory buffer `M_` is left
unmodified; and it ends in that outcome only if the file cannot be opened. -/
theorem C17_missing_file (OUTPUT_BIN_PATH : String) (MEM_SIZE_ : Nat) (fs : FileSystem)
    (M_ : List Nat) (name : String) (step : Nat) :
    fileName OUTPUT_BIN_PATH name step
      = OUTPUT_BIN_PATH ++ "/" ++ name ++ "_" ++ toString step ++ ".bin" ∧
    (fs (fileName OUTPUT_BIN_PATH name step) = none →
      Import OUTPUT_BIN_PATH MEM_SIZE_ fs M_ name step = (Outcome.exited EXIT_FAILURE, M_)) ∧
    (∀ code, (Import OUTPUT_BIN_PATH MEM_SIZE_ fs M_ name step).1 = Outcome.exited code →
      fs (fileName OUTPUT_BIN_PATH name step) = none) := by
  refine ⟨rfl, Import_of_none OUTPUT_BIN_PATH MEM_SIZE_ fs M_ name step, ?_⟩
  intro code h
  cases hf : fs (fileName OUTPUT_BIN_PATH name step) with
  | none => rfl
  | some file =>
    rw [Import_of_some OUTPUT_BIN_PATH MEM_SIZE_ fs M_ name step hf] at h
    exact Outcome.noConfusion h

/-- C17, witness: on a file system that holds only `out/field_5.bin`, the path of
`Import("field", 999)` is `out/field_999.bin`, the call exits with `EXIT_FAILURE` and the buffer
`[1, 2, 3, 4]` is unmodified. -/
theorem C17_missing_file_witness :
    fileName "out" "field" 999 = "out/field_999.bin" ∧
    Import "out" 4 oneFile [1, 2, 3, 4] "field" 999
      = (Outcome.exited EXIT_FAILURE, [1, 2, 3, 4]) :=
  ⟨by decide, (C17_missing_file "out" 4 oneFile [1, 2, 3, 4] "field" 999).2.1 (by decide)⟩

/-- C18: in-place property. For both parities, all neighbour arrays `x3, y3, z3`, every
`n ∈ {0,1}`, every `d` and `p`, `AA_IndexRead<parity>(x3, y3, z3, n, d, p)
= AA_IndexWrite<parity>(x3, y3, z3, 1-n, d, p)`; hence at every node and in every phase the set
of offsets read (over `n ∈ {0,1}` and `d` below any bound) equals the set of offsets written,
independently of the lattice tables. -/
theorem C18_in_place (P : Population) (odd : Bool) (x3 y3 z3 : Arr3) (p : Nat) :
    (∀ n d, n < 2 →
      P.AA_IndexRead odd x3 y3 z3 n d p = P.AA_IndexWrite odd x3 y3 z3 (1 - n) d p) ∧
    (∀ K i, (∃ n d, n < 2 ∧ d < K ∧ P.AA_IndexRead odd x3 y3 z3 n d p = i) ↔
      (∃ n d, n < 2 ∧ d < K ∧ P.AA_IndexWrite odd x3 y3 z3 n d p = i)) := by
  refine ⟨fun n d hn => AA_IndexRead_eq_Write P odd x3 y3 z3 d p hn, fun K i => ?_⟩
  constructor
  · rintro ⟨n, d, hn, hd, h⟩
    exact ⟨1 - n, d, by omega, hd, by rw [← AA_IndexRead_eq_Write P odd x3 y3 z3 d p hn, h]⟩
  · rintro ⟨n, d, hn, hd, h⟩
    refine ⟨1 - n, d, by omega, hd, ?_⟩
    rw [AA_IndexRead_eq_Write P odd x3 y3 z3 d p (by omega : 1 - n < 2)]
    have e : 1 - (1 - n) = n := by omega
    rw [e, h]

/-- C18, witness: the odd-step read of `(n, d) = (0, 1)` on a 4×4×4 domain is the odd-step write
of `(1, 1)`. -/
theorem C18_in_place_witness :
    (popD3Q19 4 4 4 1).AA_IndexRead true ![0, 1, 2] ![1, 2, 3] ![3, 0, 1] 0 1 0
      = (popD3Q19 4 4 4 1).AA_IndexWrite true ![0, 1, 2] ![1, 2, 3] ![3, 0, 1] (1 - 0) 1 0 :=
  (C18_in_place (popD3Q19 4 4 4 1) true ![0, 1, 2] ![1, 2, 3] ![3, 0, 1] 0).1 0 1 (by decide)

/-- C19: index safety. For the D3Q19 lattice, both parities, every `n ∈ {0,1}` and `d < 10`,
every velocity-table index used by `AA_IndexRead` and `AA_IndexWrite` (`(1-n)*OFF + d` and
`n*OFF + d`) is `< ND = 20`, the length of the tables, and every neighbour-array index
`1 + O_E(parity, D[...], 0)` is in `{0, 1, 2}`; and if moreover all entries of `x3`, `y3`, `z3`
are `< NX`, `NY`, `NZ` respectively and `p < NPOP`, the returned offset is
`< NX*NY*NZ*NPOP*ND`, the size of the buffer `F_`. -/
theorem C19_index_safety (NX NY NZ NPOP : Nat) (odd : Bool) (n d : Nat)
    (hn : n < 2) (hd : d < 10) :
    (tabIndexRead (popD3Q19 NX NY NZ NPOP) n d = (1 - n) * D3Q19.OFF + d ∧
      tabIndexRead (popD3Q19 NX NY NZ NPOP) n d < D3Q19.ND ∧
      tabIndexWrite (popD3Q19 NX NY NZ NPOP) n d = n * D3Q19.OFF + d ∧
      tabIndexWrite (popD3Q19 NX NY NZ NPOP) n d < D3Q19.ND ∧ D3Q19.ND = 20) ∧
    (∀ D ∈ [D3Q19.DX, D3Q19.DY, D3Q19.DZ], D.length = D3Q19.ND ∧
      (nbIndexRead (popD3Q19 NX NY NZ NPOP) odd D n d = 0 ∨
        nbIndexRead (popD3Q19 NX NY NZ NPOP) odd D n d = 1 ∨
        nbIndexRead (popD3Q19 NX NY NZ NPOP) odd D n d = 2) ∧
      (nbIndexWrite (popD3Q19 NX NY NZ NPOP) odd D n d = 0 ∨
        nbIndexWrite (popD3Q19 NX NY NZ NPOP) odd D n d = 1 ∨
        nbIndexWrite (popD3Q19 NX NY NZ NPOP) odd D n d = 2)) ∧
    (∀ (x3 y3 z3 : Arr3) (p : Nat), (∀ j, x3 j < NX) → (∀ j, y3 j < NY) → (∀ j, z3 j < NZ) →
      p < NPOP →
      (popD3Q19 NX NY NZ NPOP).AA_IndexRead odd x3 y3 z3 n d p < NX * NY * NZ * NPOP * 20 ∧
      (popD3Q19 NX NY NZ NPOP).AA_IndexWrite odd x3 y3 z3 n d p < NX * NY * NZ * NPOP * 20) := by
  have h1 : (1 : Nat) - n < 2 := by omega
  have hND : D3Q19.ND = 20 := rfl
  have hOFF : D3Q19.OFF = 10 := rfl
  have hnb : ∀ D ∈ [D3Q19.DX, D3Q19.DY, D3Q19.DZ],
      (nbIndexRead (popD3Q19 NX NY NZ NPOP) odd D n d = 0 ∨
        nbIndexRead (popD3Q19 NX NY NZ NPOP) odd D n d = 1 ∨
        nbIndexRead (popD3Q19 NX NY NZ NPOP) odd D n d = 2) ∧
      (nbIndexWrite (popD3Q19 NX NY NZ NPOP) odd D n d = 0 ∨
        nbIndexWrite (popD3Q19 NX NY NZ NPOP) odd D n d = 1 ∨
        nbIndexWrite (popD3Q19 NX NY NZ NPOP) odd D n d = 2) := by
    intro D hD
    cases odd
    · rw [nbIndexRead_even, nbIndexWrite_even]
      exact ⟨Or.inr (Or.inl rfl), Or.inr (Or.inl rfl)⟩
    · obtain ⟨hm, hr⟩ := tables_D3Q19 hD hn hd
      rw [nbIndexRead_odd NX NY NZ NPOP D hn hd, nbIndexWrite_odd NX NY NZ NPOP D hn hd, hm]
      constructor <;> omega
  refine ⟨⟨tabIndexRead_D3Q19 NX NY NZ NPOP hn hd, ?_, tabIndexWrite_D3Q19 NX NY NZ NPOP hn hd,
    ?_, hND⟩, ?_, ?_⟩
  · rw [tabIndexRead_D3Q19 NX NY NZ NPOP hn hd, hND, hOFF]; omega
  · rw [tabIndexWrite_D3Q19 NX NY NZ NPOP hn hd, hND, hOFF]; omega
  · intro D hD
    refine ⟨?_, hnb D hD⟩
    simp only [List.mem_cons, List.mem_singleton, List.not_mem_nil, or_false] at hD
    rcases hD with h | h | h <;> subst h <;> rfl
  · intro x3 y3 z3 p hx hy hz hp
    have hhr : halfRead odd n < 2 := by
      cases odd
      · rw [halfRead_false hn]; omega
      · rw [halfRead_true]; exact hn
    have hhw : halfWrite odd n < 2 := by
      cases odd
      · rw [halfWrite_false]; exact hn
      · rw [halfWrite_true hn]; omega
    have bX := hnb D3Q19.DX (by simp)
    have bY := hnb D3Q19.DY (by simp)
    have bZ := hnb D3Q19.DZ (by simp)
    rw [AA_IndexRead_parts, AA_IndexWrite_parts, ← bufferSize_D3Q19]
    exact ⟨SpatialToLinear_lt _ (valid_D3Q19 (Arr3.get_lt hx bX.1) (Arr3.get_lt hy bY.1)
        (Arr3.get_lt hz bZ.1) hp hhr hd),
      SpatialToLinear_lt _ (valid_D3Q19 (Arr3.get_lt hx bX.2) (Arr3.get_lt hy bY.2)
        (Arr3.get_lt hz bZ.2) hp hhw hd)⟩

/-- C19, witness: on a 4×4×4 domain with the periodic neighbour arrays of node `(3, 0, 2)`, the
odd-step offsets of `(n, d) = (0, 4)` are below the buffer size 1280. -/
theorem C19_index_safety_witness :
    (popD3Q19 4 4 4 1).AA_IndexRead true (periodic 4 3) (periodic 4 0) (periodic 4 2) 0 4 0
        < 4 * 4 * 4 * 1 * 20 ∧
    (popD3Q19 4 4 4 1).AA_IndexWrite true (periodic 4 3) (periodic 4 0) (periodic 4 2) 0 4 0
        < 4 * 4 * 4 * 1 * 20 :=
  (C19_index_safety 4 4 4 1 true 0 4 (by decide) (by decide)).2.2
    (periodic 4 3) (periodic 4 0) (periodic 4 2) 0 (by decide) (by decide) (by decide)
    (by decide)

/-- C20: no 32-bit wrap-around. `SpatialToLinear` evaluates its formula in 32-bit unsigned
arithmetic before widening to `size_t` (its result is the exact value reduced modulo `2^32`);
for every `NX, NY, NZ, NPOP`, every lattice with constants `ND` and `OFF`, with
`NX*NY*NZ*NPOP*ND ≤ 2^32`, and every valid tuple (`x < NX`, `y < NY`, `z < NZ`, `p < NPOP`,
`n*OFF + d < ND`), the result computed modulo `2^32` at every step equals the exact
natural-number value of `(((z*NY + y)*NX + x)*NPOP + p)*ND + n*OFF + d`. -/
theorem C20_no_wrap_around (P : Population) (x y z n d p : Nat) :
    P.SpatialToLinear x y z n d p
      = ((((z * P.NY + y) * P.NX + x) * P.NPOP + p) * P.LT.ND + n * P.LT.OFF + d) % 2 ^ 32 ∧
    (P.NX * P.NY * P.NZ * P.NPOP * P.LT.ND ≤ 2 ^ 32 →
      x < P.NX → y < P.NY → z < P.NZ → p < P.NPOP → n * P.LT.OFF + d < P.LT.ND →
      P.SpatialToLinear x y z n d p
        = (((z * P.NY + y) * P.NX + x) * P.NPOP + p) * P.LT.ND + n * P.LT.OFF + d) :=
  ⟨SpatialToLinear_eq_mod P x y z n d p, fun hsize hx hy hz hp hs =>
    SpatialToLinear_eq_linearize P ⟨hx, hy, hz, hp, hs⟩ hsize⟩

/-- C20, witness: the last slot of a 1024×1024×204 domain of D3Q19 (`20·204·2^20` entries, just
below `2^32`). -/
theorem C20_no_wrap_around_witness :
    (popD3Q19 1024 1024 204 1).SpatialToLinear 1023 1023 203 1 9 0
      = (((203 * 1024 + 1023) * 1024 + 1023) * 1 + 0) * 20 + 1 * 10 + 9 :=
  (C20_no_wrap_around (popD3Q19 1024 1024 204 1) 1023 1023 203 1 9 0).2 (by decide) (by decide)
    (by decide) (by decide) (by decide) (by decide)

/-- C21 as stated fails, in two ways, for the lattice with `SPEEDS = 15`, `PAD = 1` (`ND = 16`,
`OFF = 8 = HSPEED`). On the domain 16384×16384×1 (`2^32` entries) the first factor
`ND*NPOP*NX*NY` of `LinearToSpatial` wraps around to 0 and the division has no result. On the
domain 1024×1024×1024 (`2^34` entries) the offset of `(0, 0, 512, n = 0, d = 0, p = 0)` wraps
around to 0 and is decoded as `(0, 0, 0, 0, 0, 0)`. -/
theorem C21_counterexample :
    ((layout 15 1).HSPEED ≤ (layout 15 1).OFF) ∧
    (Population.mk 16384 16384 1 (layout 15 1) 1).LinearToSpatial
        ((Population.mk 16384 16384 1 (layout 15 1) 1).SpatialToLinear 1 2 0 0 3 0) = none ∧
    (Population.mk 1024 1024 1024 (layout 15 1) 1).LinearToSpatial
        ((Population.mk 1024 1024 1024 (layout 15 1) 1).SpatialToLinear 0 0 512 0 0 0)
      = some (0, 0, 0, 0, 0, 0) := by
  refine ⟨by decide, by decide, by decide⟩

/-- C21 (amended): round trip for a generic lattice model. For all lattice constants with
`ND = SPEEDS + PAD`, `OFF = ND/2`, `HSPEED = (SPEEDS+1)/2` that satisfy `HSPEED ≤ OFF`, and
every domain `NX, NY, NZ, NPOP ≥ 1` whose buffer has fewer than `2^32` entries
(`NX*NY*NZ*NPOP*ND < 2^32`), `LinearToSpatial(SpatialToLinear(x, y, z, n, d, p))
= (x, y, z, p, n, d)` for all `x < NX`, `y < NY`, `z < NZ`, `p < NPOP`, `n ∈ {0,1}`,
`d < HSPEED`; the hypothesis `HSPEED ≤ OFF` is needed: with `SPEEDS = 19`, `PAD = 0` the tuples
`(n = 0, d = 9)` and `(n = 1, d = 0)` get the same offset. -/
theorem C21_roundtrip_generic (P : Population) (x y z n d p : Nat) :
    (P.LT.ND = P.LT.SPEEDS + P.LT.PAD → P.LT.OFF = P.LT.ND / 2 →
      P.LT.HSPEED = (P.LT.SPEEDS + 1) / 2 → P.LT.HSPEED ≤ P.LT.OFF →
      P.NX * P.NY * P.NZ * P.NPOP * P.LT.ND < 2 ^ 32 →
      x < P.NX → y < P.NY → z < P.NZ → p < P.NPOP → n < 2 → d < P.LT.HSPEED →
      P.LinearToSpatial (P.SpatialToLinear x y z n d p) = some (x, y, z, p, n, d)) ∧
    ((layout 19 0).ND = 19 ∧ (layout 19 0).OFF = 9 ∧ (layout 19 0).HSPEED = 10 ∧
      (Population.mk P.NX P.NY P.NZ (layout 19 0) P.NPOP).SpatialToLinear x y z 0 9 p
        = (Population.mk P.NX P.NY P.NZ (layout 19 0) P.NPOP).SpatialToLinear x y z 1 0 p) := by
  refine ⟨?_, rfl, rfl, rfl, ?_⟩
  · intro _ hOFF hHS hle hsize hx hy hz hp hn hd
    obtain ⟨hs, hdo, hds⟩ := slot_of_layout hOFF hHS hle hn hd
    have hv : Valid P x y z n d p := ⟨hx, hy, hz, hp, hs⟩
    rw [SpatialToLinear_eq_linearize P hv (Nat.le_of_lt hsize)]
    exact LinearToSpatial_linearize P hv hdo hds hsize
  · rw [SpatialToLinear_eq_mod, SpatialToLinear_eq_mod]
    have e : linearize (Population.mk P.NX P.NY P.NZ (layout 19 0) P.NPOP) x y z 0 9 p
        = linearize (Population.mk P.NX P.NY P.NZ (layout 19 0) P.NPOP) x y z 1 0 p := by
      simp only [linearize, layout]
    rw [e]

/-- C21, witness: the lattice with `SPEEDS = 15`, `PAD = 1` on a 4×4×4 domain. -/
theorem C21_roundtrip_generic_witness :
    (Population.mk 4 4 4 (layout 15 1) 1).LinearToSpatial
        ((Population.mk 4 4 4 (layout 15 1) 1).SpatialToLinear 1 2 3 1 7 0)
      = some (1, 2, 3, 0, 1, 7) :=
  (C21_roundtrip_generic (Population.mk 4 4 4 (layout 15 1) 1) 1 2 3 1 7 0).1 (by decide)
    (by decide) (by decide) (by decide) (by decide) (by decide) (by decide) (by decide)
    (by decide) (by decide) (by decide)

/-- C22 as stated fails: on a 3×3×3 grid with `radius = 65536` and `position = (0, 0, 0)`
(`walls` false) every node lies in the disc over the integers, the node `(1, 1, 1)` for one
(`2 ≤ 65536^2`), but `radius*radius` wraps around to 0 and `wall` receives only the three nodes
with `x = y = 0`; the node `(0, 1, 1)` goes to `inlet`, `(2, 1, 1)` to `outlet`, and
`(1, 1, 1)` to no list. -/
theorem C22_counterexample :
    Cylinder3D 3 3 3 65536 ![0, 0, 0] "x" false (⟨[], [], []⟩ : Boundaries ℚ) 1 0 0 0
      = (Outcome.returned,
          ⟨[⟨0, 0, 0, 1, 0, 0, 0⟩, ⟨0, 0, 1, 1, 0, 0, 0⟩, ⟨0, 0, 2, 1, 0, 0, 0⟩],
            [⟨0, 1, 1, 1, 0, 0, 0⟩], [⟨2, 1, 1, 1, 0, 0, 0⟩]⟩) ∧
    inDisc 1 1 ![0, 0, 0] 65536 ∧ inDisc 0 1 ![0, 0, 0] 65536 ∧ inDisc 2 1 ![0, 0, 0] 65536 ∧
    discTest 1 1 ![0, 0, 0] 65536 = false := by
  refine ⟨rfl, ?_, ?_, ?_, by decide⟩ <;> (unfold inDisc; norm_num)

/-- C22 (amended): Cylinder3D classification for orientation "x". For every `NX, NY, NZ`
(values of `unsigned int`), radius, position and walls flag, each grid node `(x, y, z)` is
appended to at most one of the lists wall, inlet, outlet and at most once, in ascending order of
`(z, y, x)`, carrying `(x, y, z, RHO, U, V, W)`; a node is in wall iff it passes the disc test
of the code (`(x-px)*(x-px) + (y-py)*(y-py) <= radius*radius` in 32-bit unsigned arithmetic,
which is the disc `(x-px)^2 + (y-py)^2 ≤ radius^2` whenever `x, y, px, py, radius < 2^15`), or
it fails it, lies on a face `y = 0`, `y = NY-1`, `z = 0` or `z = NZ-1` and walls is true; it is
in inlet iff it fails the disc test, is on none of those faces and `x = 0`; it is in outlet iff
it fails the disc test, is on none of those faces, `x ≠ 0` and `x = NX-1`. -/
theorem C22_cylinder_classification {T : Type} (NX NY NZ radius : Nat) (position : Arr3)
    (walls : Bool) (b : Boundaries T) (RHO U V W : T)
    (hNX : NX < 2 ^ 32) (hNY : NY < 2 ^ 32) (hNZ : NZ < 2 ^ 32) :
    Cylinder3D NX NY NZ radius position "x" walls b RHO U V W
      = (Outcome.returned,
          { wall := b.wall ++ ((grid NX NY NZ).filter
              (wallRule NY NZ radius position walls)).map (elementAt RHO U V W),
            inlet := b.inlet ++ ((grid NX NY NZ).filter
              (inletRule NY NZ radius position)).map (elementAt RHO U V W),
            outlet := b.outlet ++ ((grid NX NY NZ).filter
              (outletRule NX NY NZ radius position)).map (elementAt RHO U V W) }) ∧
    (grid NX NY NZ).Pairwise before ∧
    (∀ r, r ∈ grid NX NY NZ ↔ r.1 < NX ∧ r.2.1 < NY ∧ r.2.2 < NZ) ∧
    (∀ r : Nat × Nat × Nat,
      (wallRule NY NZ radius position walls r = true ↔
        (discTest r.1 r.2.1 position radius = true ∨
          (discTest r.1 r.2.1 position radius = false ∧
            (r.2.1 = 0 ∨ r.2.1 = NY - 1 ∨ r.2.2 = 0 ∨ r.2.2 = NZ - 1) ∧ walls = true))) ∧
      (inletRule NY NZ radius position r = true ↔
        (discTest r.1 r.2.1 position radius = false ∧
          ¬ (r.2.1 = 0 ∨ r.2.1 = NY - 1 ∨ r.2.2 = 0 ∨ r.2.2 = NZ - 1) ∧ r.1 = 0)) ∧
      (outletRule NX NY NZ radius position r = true ↔
        (discTest r.1 r.2.1 position radius = false ∧
          ¬ (r.2.1 = 0 ∨ r.2.1 = NY - 1 ∨ r.2.2 = 0 ∨ r.2.2 = NZ - 1) ∧ r.1 ≠ 0 ∧
          r.1 = NX - 1)) ∧
      ¬ (wallRule NY NZ radius position walls r = true ∧
        inletRule NY NZ radius position r = true) ∧
      ¬ (wallRule NY NZ radius position walls r = true ∧
        outletRule NX NY NZ radius position r = true) ∧
      ¬ (inletRule NY NZ radius position r = true ∧
        outletRule NX NY NZ radius position r = true)) ∧
    (∀ r : Nat × Nat × Nat, r.1 < 2 ^ 15 → r.2.1 < 2 ^ 15 → position 0 < 2 ^ 15 →
      position 1 < 2 ^ 15 → radius < 2 ^ 15 →
      (discTest r.1 r.2.1 position radius = true ↔ inDisc r.1 r.2.1 position radius)) := by
  refine ⟨?_, pairwise_grid NX NY NZ, mem_grid NX NY NZ, ?_,
    fun r hx hy hpx hpy hr => discTest_iff hx hy hpx hpy hr⟩
  · simp only [Cylinder3D, if_true]
    rw [foldl_grid (fun b x y z => cylinderBody NX NY NZ radius position walls RHO U V W b x y z),
      cylinderFold_eq NX NY NZ radius position walls RHO U V W (Nat.le_of_lt hNX)
        (Nat.le_of_lt hNY) (Nat.le_of_lt hNZ) (grid NX NY NZ)
        (fun r hr => (mem_grid NX NY NZ r).1 hr) b]
  · intro r
    simp only [wallRule, inletRule, outletRule, onFace]
    cases hd : discTest r.1 r.2.1 position radius <;> cases walls <;> simp <;> tauto

/-- C22, witness: a 4×3×3 grid with a cylinder of radius 0 at `(2, 1)` and side walls. -/
theorem C22_cylinder_classification_witness :
    Cylinder3D 4 3 3 0 ![2, 1, 0] "x" true (⟨[], [], []⟩ : Boundaries ℚ) 1 0 0 0
      = (Outcome.returned,
          { wall := [] ++ ((grid 4 3 3).filter (wallRule 3 3 0 ![2, 1, 0] true)).map
              (elementAt 1 0 0 0),
            inlet := [] ++ ((grid 4 3 3).filter (inletRule 3 3 0 ![2, 1, 0])).map
              (elementAt 1 0 0 0),
            outlet := [] ++ ((grid 4 3 3).filter (outletRule 4 3 3 0 ![2, 1, 0])).map
              (elementAt 1 0 0 0) }) :=
  (C22_cylinder_classification 4 3 3 0 ![2, 1, 0] true (⟨[], [], []⟩ : Boundaries ℚ) 1 0 0 0
    (by decide) (by decide) (by decide)).1

/-- C23: unsigned disc test of Cylinder3D. The test
`(x-px)*(x-px) + (y-py)*(y-py) <= radius*radius` is evaluated in 32-bit unsigned arithmetic,
where `x - px` wraps around when `x < px`; for all `x, y, px, py, radius < 2^15` the wrapped
test gives the same truth value as the test `(x-px)^2 + (y-py)^2 ≤ radius^2` over the
integers. -/
theorem C23_unsigned_disc_test (x y radius : Nat) (position : Arr3) :
    (x < position 0 → position 0 < 2 ^ 32 →
      usub x (position 0) = 2 ^ 32 - (position 0 - x)) ∧
    (x < 2 ^ 15 → y < 2 ^ 15 → position 0 < 2 ^ 15 → position 1 < 2 ^ 15 → radius < 2 ^ 15 →
      (discTest x y position radius = true ↔ inDisc x y position radius)) := by
  refine ⟨fun h1 h2 => ?_, fun hx hy hpx hpy hr => discTest_iff hx hy hpx hpy hr⟩
  unfold usub
  omega

/-- C23, witness: the node `(0, 1)` and a cylinder of radius 1 at `(1, 1)`: `0 - 1` wraps around
to `2^32 - 1`, whose square wraps around to 1, and the node passes the test. -/
theorem C23_unsigned_disc_test_witness :
    usub 0 1 = 2 ^ 32 - (1 - 0) ∧
    (discTest 0 1 ![1, 1, 0] 1 = true ↔ inDisc 0 1 ![1, 1, 0] 1) :=
  ⟨(C23_unsigned_disc_test 0 1 1 ![1, 1, 0]).1 (by decide) (by decide),
    (C23_unsigned_disc_test 0 1 1 ![1, 1, 0]).2 (by decide) (by decide) (by decide) (by decide)
      (by decide)⟩

end LBt
